import Mathlib

/-!
# GameOfLife (script.js): a coloured Game of Life on a torus

A shallow embedding of the simulation core of `script.js`: the cell grid, the
step block of `draw()`, the winner check, the alive-ratio history and the
manual edits, followed by theorems about them.

Modelling conventions
* JavaScript numbers are IEEE doubles. Every number of the step block is
  integer valued and is an `Int`; each addition or subtraction rounds its exact
  result to the nearest double (`toDouble`, ties to even), and
  `Math.round(a / b)` rounds the quotient to the nearest double before rounding
  it to an integer (`mathRoundDiv`). Magnitudes beyond the finite range of
  doubles are outside the model. The alive ratio is an exact `ℚ`.
* `grid[i][j]` is a total function `Nat → Nat → Cell`; only the entries with
  `i < cols` and `j < rows` are ever read or written by the program.
* A colour array `[r, g, b]` is a `Color`; strings are `List Char`.
* Objects keyed by strings (`colorMap`) and `Set`s of strings (`colorSet`) are
  lists in insertion order, which is the order JavaScript iterates them in for
  keys that are not array indices (every key here contains a comma).
-/

namespace GameOfLife

/-! ## Data model -/

/-- The three-element colour array `[r, g, b]` held by a cell. -/
structure Color where
  r : Int
  g : Int
  b : Int
deriving DecidableEq, Repr

/-- A grid entry `{alive: .., color: [..]}`. -/
structure Cell where
  alive : Int
  color : Color
deriving DecidableEq, Repr

/-- The global `grid`, indexed `grid[i][j]` with `i` the column and `j` the row. -/
abbrev Grid := Nat → Nat → Cell

/-- The literal `[0,0,0]`. -/
def black : Color := ⟨0, 0, 0⟩

/-- The literal `[255,255,255]`. -/
def white : Color := ⟨255, 255, 255⟩

/-- The literal `{alive: 0, color: [0,0,0]}`. -/
def deadCell : Cell := ⟨0, black⟩

/-! ## String keys: `color.join(',')` and `key.split(',').map(Number)` -/

/-- A JavaScript string. -/
abbrev Key := List Char

/-- The decimal digit character of `d` (for `d < 10`). -/
def digitChar (d : Nat) : Char :=
  match d with
  | 0 => '0'
  | 1 => '1'
  | 2 => '2'
  | 3 => '3'
  | 4 => '4'
  | 5 => '5'
  | 6 => '6'
  | 7 => '7'
  | 8 => '8'
  | _ => '9'

/-- The value of a decimal digit character (0 for any other character; `Number`
is only ever applied to strings produced by `join`). -/
def digitVal (c : Char) : Nat :=
  if c = '1' then 1
  else if c = '2' then 2
  else if c = '3' then 3
  else if c = '4' then 4
  else if c = '5' then 5
  else if c = '6' then 6
  else if c = '7' then 7
  else if c = '8' then 8
  else if c = '9' then 9
  else 0

/-- Decimal digits of `n`, most significant first, pushed in front of `acc`;
`fuel` bounds the number of digits produced. -/
def natDigitsAux : Nat → Nat → List Char → List Char
  | 0, _, acc => acc
  | fuel + 1, n, acc =>
    if n < 10 then digitChar n :: acc
    else natDigitsAux fuel (n / 10) (digitChar (n % 10) :: acc)

/-- The decimal representation of a natural number, as `String(n)` gives it. -/
def natToString (n : Nat) : List Char := natDigitsAux (n + 1) n []

/-- The string JavaScript produces for an integer-valued number (plain decimal
digits with a leading minus sign for negatives; the exponent form used from
`1e21` on is outside the model). -/
def numberToString (z : Int) : List Char :=
  if z < 0 then '-' :: natToString z.natAbs else natToString z.natAbs

/-- The key `color.join(',')`. -/
def joinComma (c : Color) : Key :=
  numberToString c.r ++ ',' :: (numberToString c.g ++ ',' :: numberToString c.b)

/-- The pieces `key.split(',')`. -/
def splitComma : List Char → List (List Char)
  | [] => [[]]
  | c :: cs =>
    if c = ',' then [] :: splitComma cs
    else
      match splitComma cs with
      | [] => [[c]]
      | p :: ps => (c :: p) :: ps

/-- The value of a string of decimal digits. -/
def parseNat (cs : List Char) : Nat :=
  cs.foldl (fun acc c => 10 * acc + digitVal c) 0

/-- `Number(str)` on an optionally signed string of decimal digits. -/
def toNumber : List Char → Int
  | [] => 0
  | c :: cs => if c = '-' then -(parseNat cs : Int) else (parseNat (c :: cs) : Int)

/-- The colour `key.split(',').map(Number)`. Keys are always produced by `join`
on a three-element array, so the split has exactly three pieces; any other
shape is mapped to black. -/
def keyToColor (k : Key) : Color :=
  match (splitComma k).map toNumber with
  | [r, g, b] => ⟨r, g, b⟩
  | _ => black

/-! ## History of alive ratios -/

/-- The constant `HISTORY_LENGTH`. -/
def HISTORY_LENGTH : Nat := 1000

/-- The update `history.push(x); if (history.length > HISTORY_LENGTH) history.shift();`. -/
def historyPush {α : Type} (history : List α) (x : α) : List α :=
  let pushed := history ++ [x]
  if pushed.length > HISTORY_LENGTH then pushed.tail else pushed

/-- The number of cells with a truthy alive flag (the `aliveCount` loops of `draw`). -/
def aliveCount (grid : Grid) (cols rows : Nat) : Nat :=
  (List.range cols).foldl
    (fun acc i => (List.range rows).foldl
      (fun acc j => if (grid i j).alive ≠ 0 then acc + 1 else acc) acc) 0

/-- The sample `aliveCount / total` with `total = cols * rows`, as an exact
rational (for an empty grid JavaScript yields `NaN` where this yields 0; the
canvas always has `cols, rows ≥ 1`). -/
def aliveRatio (grid : Grid) (cols rows : Nat) : ℚ :=
  (aliveCount grid cols rows : ℚ) / ((cols * rows : Nat) : ℚ)

/-! ## Double-precision arithmetic on integer values -/

/-- The number of binary digits of `n` (0 for `n = 0`); `fuel` bounds the
number of digits counted. -/
def bitLength : Nat → Nat → Nat
  | 0, _ => 0
  | fuel + 1, n => if n = 0 then 0 else bitLength fuel (n / 2) + 1

/-- The natural number `n` rounded to 53 significant binary digits, to nearest
with ties to the even mantissa: the magnitude of the double nearest to `n`. -/
def roundNat53 (n : Nat) : Nat :=
  let k := bitLength n n - 53
  let m := n / 2 ^ k
  let r := n % 2 ^ k
  if 2 * r > 2 ^ k ∨ (2 * r = 2 ^ k ∧ m % 2 = 1) then (m + 1) * 2 ^ k else m * 2 ^ k

/-- The double nearest to the integer `z`. -/
def toDouble (z : Int) : Int :=
  if z < 0 then -(roundNat53 z.natAbs : Int) else (roundNat53 z.natAbs : Int)

/-- The JavaScript sum `a + b` of two integer-valued doubles. -/
def jsAdd (a b : Int) : Int := toDouble (a + b)

/-- The JavaScript difference `a - b` of two integer-valued doubles. -/
def jsSub (a b : Int) : Int := toDouble (a - b)

/-- The value of `Math.round(a / b)` for integer-valued doubles `a` and `b ≠ 0`
(here `b` is a positive count): the quotient is computed with `s` extra binary
digits and a sticky remainder, rounded to 53 significant digits (nearest, ties
to even) to give the double `a / b`, and `Math.round` then takes the floor of
that double plus one half. -/
def mathRoundDiv (a b : Int) : Int :=
  let s := 64 + bitLength b.natAbs b.natAbs
  let q := a.natAbs * 2 ^ s / b.natAbs
  let sticky := a.natAbs * 2 ^ s % b.natAbs
  let k := bitLength q q - 53
  let m := q / 2 ^ k
  let r := q % 2 ^ k
  let m1 := if 2 * r > 2 ^ k ∨ (2 * r = 2 ^ k ∧ (sticky ≠ 0 ∨ m % 2 = 1)) then m + 1 else m
  let sm : Int := if a < 0 then -(m1 : Int) else (m1 : Int)
  (2 * sm * 2 ^ k + 2 ^ s) / 2 ^ (s + 1)

/-! ## The step block of `draw` -/

/-- The wrapped index `(i + off + n) % n`, with the truncating remainder of
JavaScript. -/
def wrap (i : Nat) (off : Int) (n : Nat) : Nat :=
  (Int.tmod ((i : Int) + off + (n : Int)) (n : Int)).toNat

/-- The increment `colorMap[key] = (colorMap[key] || 0) + 1`. -/
def colorMapIncr : List (Key × Int) → Key → List (Key × Int)
  | [], key => [(key, 1)]
  | (k, n) :: rest, key =>
    if k = key then (k, jsAdd (if n ≠ 0 then n else 0) 1) :: rest
    else (k, n) :: colorMapIncr rest key

/-- The accumulators of the neighbourhood scan. -/
structure Acc where
  sum : Int
  colorSum : Color
  colorCount : Int
  colorMap : List (Key × Int)
deriving DecidableEq, Repr

/-- The accumulators before the scan. -/
def Acc.init : Acc := ⟨0, ⟨0, 0, 0⟩, 0, []⟩

/-- The body of the inner neighbour loop, applied to the cell it reads. -/
def Acc.visit (acc : Acc) (neighbor : Cell) : Acc :=
  let sum := jsAdd acc.sum neighbor.alive
  if neighbor.alive ≠ 0 then
    { sum := sum
      colorSum := ⟨jsAdd acc.colorSum.r neighbor.color.r, jsAdd acc.colorSum.g neighbor.color.g,
        jsAdd acc.colorSum.b neighbor.color.b⟩
      colorCount := jsAdd acc.colorCount 1
      colorMap := colorMapIncr acc.colorMap (joinComma neighbor.color) }
  else { acc with sum := sum }

/-- The offsets `-1, 0, 1` of both neighbour loops. -/
def offsets : List Int := [-1, 0, 1]

/-- The two nested neighbour loops (`xoff` outside, `yoff` inside) at cell `(i, j)`. -/
def scan (grid : Grid) (cols rows i j : Nat) : Acc :=
  offsets.foldl
    (fun acc xoff => offsets.foldl
      (fun acc yoff => acc.visit (grid (wrap i xoff cols) (wrap j yoff rows))) acc)
    Acc.init

/-- The loop `for (let key in colorMap)` that picks the majority colour. -/
def majorityColor (colorMap : List (Key × Int)) : Color :=
  (colorMap.foldl
    (fun (best : Int × Color) kv =>
      if kv.2 > best.1 then (kv.2, keyToColor kv.1) else best)
    (0, white)).2

/-- The colour given to a cell that is born. -/
def birthColor (colorMixing : Bool) (acc : Acc) : Color :=
  if colorMixing then
    if acc.colorCount ≠ 0 then
      ⟨mathRoundDiv acc.colorSum.r acc.colorCount, mathRoundDiv acc.colorSum.g acc.colorCount,
        mathRoundDiv acc.colorSum.b acc.colorCount⟩
    else white
  else majorityColor acc.colorMap

/-- The entry `next[i][j]` computed by the step block. -/
def stepCell (grid : Grid) (cols rows : Nat) (colorMixing : Bool) (i j : Nat) : Cell :=
  let state := (grid i j).alive
  let acc := scan grid cols rows i j
  let sum := jsSub acc.sum state
  if state = 1 ∧ (sum < 2 ∨ sum > 3) then deadCell
  else if state = 0 ∧ sum = 3 then ⟨1, birthColor colorMixing acc⟩
  else if state ≠ 0 then ⟨1, (grid i j).color⟩
  else deadCell

/-- The grid `next` that the step block installs. -/
def step (grid : Grid) (cols rows : Nat) (colorMixing : Bool) : Grid :=
  fun i j => stepCell grid cols rows colorMixing i j

/-! ## The winner check -/

/-- The operation `colorSet.add(key)`. -/
def setAdd (s : List Key) (key : Key) : List Key :=
  if key ∈ s then s else s ++ [key]

/-- The `colorSet` built by the winner check: the keys of the alive cells. -/
def colorSet (grid : Grid) (cols rows : Nat) : List Key :=
  (List.range cols).foldl
    (fun acc i => (List.range rows).foldl
      (fun acc j => if (grid i j).alive ≠ 0 then setAdd acc (joinComma (grid i j).color) else acc)
      acc) []

/-! ## The controller -/

/-- The two values the global `tool` takes. -/
inductive Tool where
  | pen
  | eraser
deriving DecidableEq, Repr

/-- The globals of the script that the simulation reads and writes. The field
`penColor` holds the channels `red(c), green(c), blue(c)` of `color(penColor)`. -/
structure State where
  cols : Nat
  rows : Nat
  grid : Grid
  running : Bool
  tool : Tool
  penColor : Color
  colorMixing : Bool
  winnerColor : Option Color
  history : List ℚ

/-- One call of `draw()` (rendering and sound left out): sample the alive
ratio, step the grid if running, then run the winner check. -/
def draw (s : State) : State :=
  let history := historyPush s.history (aliveRatio s.grid s.cols s.rows)
  let grid := if s.running then step s.grid s.cols s.rows s.colorMixing else s.grid
  let set := colorSet grid s.cols s.rows
  if s.running ∧ set.length = 1 ∧ set.length ≠ 0 then
    { s with
      grid := grid
      history := history
      running := false
      winnerColor := some (keyToColor (set.headD [])) }
  else { s with grid := grid, history := history }

/-- The assignment `grid[i][j] = cell`. -/
def setCell (grid : Grid) (i j : Nat) (cell : Cell) : Grid :=
  fun a b => if a = i ∧ b = j then cell else grid a b

/-- The tool-dependent writes shared by `mousePressed` and `mouseDragged`. -/
def applyTool (s : State) (i j : Nat) : Grid :=
  let g1 := if s.tool = Tool.pen then setCell s.grid i j ⟨1, s.penColor⟩ else s.grid
  if s.tool = Tool.eraser then setCell g1 i j deadCell else g1

/-- The guarded write shared by `mousePressed` and `mouseDragged`, with
`i = floor(mouseX / resolution)` and `j = floor(mouseY / resolution)`:
`if (i >= 0 && i < cols && j >= 0 && j < rows) { ... }`. -/
def edit (s : State) (i j : Int) : State :=
  if 0 ≤ i ∧ i < s.cols ∧ 0 ≤ j ∧ j < s.rows then
    { s with grid := applyTool s i.toNat j.toNat }
  else s

/-- The handler `mousePressed`. -/
def mousePressed (s : State) (i j : Int) : State :=
  if ¬ s.running then edit s i j else s

/-- The handler `mouseDragged`: the same edit, followed by `redraw()`. -/
def mouseDragged (s : State) (i j : Int) : State :=
  if ¬ s.running then draw (edit s i j) else s

/-- The handler `clearBtn.onclick`: stop, write a dead cell at every `(i, j)` with
`i < cols` and `j < rows`, then `redraw()`. -/
def clear (s : State) : State :=
  draw { s with
    running := false
    grid := fun a b => if a < s.cols ∧ b < s.rows then deadCell else s.grid a b }

/-- The handler `startPauseBtn.onclick`. -/
def startPause (s : State) : State :=
  { s with running := !s.running }

/-! ## Reference notions used to state the properties -/

/-- The exact quotient `a / b` rounded to the nearest integer, ties upwards: the
floor of `a / b + 1/2` (for `b > 0`). -/
def roundDiv (a b : Int) : Int := (2 * a + b) / (2 * b)

/-- The cells inside the grid that are alive (truthy alive flag). -/
def aliveCells (grid : Grid) (cols rows : Nat) : Finset (Nat × Nat) :=
  (Finset.range cols ×ˢ Finset.range rows).filter (fun p => (grid p.1 p.2).alive ≠ 0)

/-- The position `(i + d) mod n` on a ring of `n` cells (mathematical modulus). -/
def torus (i : Nat) (d : Int) (n : Nat) : Nat :=
  (((i : Int) + d) % (n : Int)).toNat

/-- The eight offsets of the Moore neighbourhood, listed in the order in which
the nested loops of the code meet them. -/
def mooreOffsets : List (Int × Int) :=
  [(-1, -1), (-1, 0), (-1, 1), (0, -1), (0, 1), (1, -1), (1, 0), (1, 1)]

/-- The eight toroidal Moore neighbours of `(i, j)`. -/
def neighbours (grid : Grid) (cols rows i j : Nat) : List Cell :=
  mooreOffsets.map (fun d => grid (torus i d.1 cols) (torus j d.2 rows))

/-- The neighbour count `n`: the sum of the alive flags of the eight neighbours. -/
def neighbourSum (grid : Grid) (cols rows i j : Nat) : Int :=
  ((neighbours grid cols rows i j).map Cell.alive).sum

/-- The alive neighbours of `(i, j)`, in scan order. -/
def aliveNeighbours (grid : Grid) (cols rows i j : Nat) : List Cell :=
  (neighbours grid cols rows i j).filter (fun c => decide (c.alive ≠ 0))

/-- The nine cells read by the scan at `(i, j)`, in the order they are read. -/
def window (grid : Grid) (cols rows i j : Nat) : List Cell :=
  offsets.flatMap (fun xoff => offsets.map (fun yoff => grid (wrap i xoff cols) (wrap j yoff rows)))

/-- Every alive flag inside the grid is exactly 0 or 1. -/
def FlagsOk (grid : Grid) (cols rows : Nat) : Prop :=
  ∀ a < cols, ∀ b < rows, (grid a b).alive = 0 ∨ (grid a b).alive = 1

/-- Conway's rule: the next alive flag of a cell with flag `old` and `n` alive
neighbours. -/
def conway (old n : Int) : Int :=
  if (old = 1 ∧ (n = 2 ∨ n = 3)) ∨ (old = 0 ∧ n = 3) then 1 else 0

/-- The position `a` is `c` or one of its two neighbours on a ring of `n` cells. -/
def near (n c a : Nat) : Prop :=
  a = torus c (-1) n ∨ a = c ∨ a = torus c 1 n

instance (n c a : Nat) : Decidable (near n c a) :=
  inferInstanceAs (Decidable (a = torus c (-1) n ∨ a = c ∨ a = torus c 1 n))

/-- The alive cells are exactly the three cells of a horizontal blinker centred
at `(x, y)`: `(x-1, y)`, `(x, y)`, `(x+1, y)` on the torus. -/
def isBlinkerH (grid : Grid) (cols rows x y : Nat) : Prop :=
  ∀ a < cols, ∀ b < rows,
    (grid a b).alive = if near cols x a ∧ b = y then 1 else 0

/-- The alive cells are exactly the three cells of a vertical blinker centred
at `(x, y)`: `(x, y-1)`, `(x, y)`, `(x, y+1)` on the torus. -/
def isBlinkerV (grid : Grid) (cols rows x y : Nat) : Prop :=
  ∀ a < cols, ∀ b < rows,
    (grid a b).alive = if a = x ∧ near rows y b then 1 else 0

/-- The sum of one colour channel over the alive neighbours of `(i, j)`. -/
def channelSum (ch : Color → Int) (grid : Grid) (cols rows i j : Nat) : Int :=
  ((aliveNeighbours grid cols rows i j).map (fun c => ch c.color)).sum

/-- The three channels of a colour lie in `[0, 255]`. -/
def ChannelsOk (c : Color) : Prop :=
  (0 ≤ c.r ∧ c.r ≤ 255) ∧ (0 ≤ c.g ∧ c.g ≤ 255) ∧ (0 ≤ c.b ∧ c.b ≤ 255)

/-- Every colour channel inside the grid lies in `[0, 255]`. -/
def ColorsOk (grid : Grid) (cols rows : Nat) : Prop :=
  ∀ a < cols, ∀ b < rows,
    (0 ≤ (grid a b).color.r ∧ (grid a b).color.r ≤ 255)
    ∧ (0 ≤ (grid a b).color.g ∧ (grid a b).color.g ≤ 255)
    ∧ (0 ≤ (grid a b).color.b ∧ (grid a b).color.b ≤ 255)

/-- The colours of the alive neighbours of `(i, j)`, in scan order. -/
def neighbourColors (grid : Grid) (cols rows i j : Nat) : List Color :=
  (aliveNeighbours grid cols rows i j).map Cell.color

/-- A well-formed cell: the alive flag is exactly 0 or 1 and a dead cell is black. -/
def CellOk (c : Cell) : Prop :=
  (c.alive = 0 ∨ c.alive = 1) ∧ (c.alive = 0 → c.color = black)

/-- The grid invariant: every cell inside the grid is well formed. -/
def WellFormed (grid : Grid) (cols rows : Nat) : Prop :=
  ∀ a < cols, ∀ b < rows, CellOk (grid a b)

/-- The computed cell `(i, j)` lies inside the grid. -/
def InRange (s : State) (i j : Int) : Prop :=
  0 ≤ i ∧ i < s.cols ∧ 0 ≤ j ∧ j < s.rows

instance (c : Color) : Decidable (ChannelsOk c) :=
  inferInstanceAs (Decidable
    ((0 ≤ c.r ∧ c.r ≤ 255) ∧ (0 ≤ c.g ∧ c.g ≤ 255) ∧ (0 ≤ c.b ∧ c.b ≤ 255)))

instance (s : State) (i j : Int) : Decidable (InRange s i j) :=
  inferInstanceAs (Decidable (0 ≤ i ∧ i < s.cols ∧ 0 ≤ j ∧ j < s.rows))

/-- The alive cells of the grid carry exactly one distinct colour, namely `c`:
some cell is alive with colour `c` and every alive cell has colour `c`. -/
def OneColour (grid : Grid) (cols rows : Nat) (c : Color) : Prop :=
  (∃ a < cols, ∃ b < rows, (grid a b).alive ≠ 0 ∧ (grid a b).color = c)
  ∧ ∀ a < cols, ∀ b < rows, (grid a b).alive ≠ 0 → (grid a b).color = c

/-! ## Concrete grids and states used to instantiate the theorems -/

/-- A 5x5 grid holding a horizontal blinker of one colour, centred at `(2, 2)`. -/
def blinkerGrid : Grid :=
  fun a b => if b = 2 ∧ (a = 1 ∨ a = 2 ∨ a = 3) then ⟨1, ⟨255, 99, 132⟩⟩ else deadCell

/-- A 5x5 grid whose alive cells `(0,0)`, `(1,0)`, `(2,0)` are black, white and green;
the dead cell `(1, 1)` has exactly these three alive neighbours. -/
def mixGrid : Grid :=
  fun a b =>
    if a = 0 ∧ b = 0 then ⟨1, ⟨0, 0, 0⟩⟩
    else if a = 1 ∧ b = 0 then ⟨1, ⟨255, 255, 255⟩⟩
    else if a = 2 ∧ b = 0 then ⟨1, ⟨0, 255, 0⟩⟩
    else deadCell

/-- An idle controller holding the blinker grid, with the white pen selected. -/
def idleState : State :=
  { cols := 5, rows := 5, grid := blinkerGrid, running := false, tool := Tool.pen,
    penColor := ⟨255, 255, 255⟩, colorMixing := true, winnerColor := none, history := [] }

/-- A running controller holding the blinker grid. -/
def runningState : State :=
  { idleState with running := true }

/-- The 5x5 blinker grid with every channel of the blinker's colour equal to
`2^53 - 2 = 9007199254740990`, an integer that a double holds exactly. -/
def bigBlinkerGrid : Grid :=
  fun a b =>
    if b = 2 ∧ (a = 1 ∨ a = 2 ∨ a = 3) then
      ⟨1, ⟨9007199254740990, 9007199254740990, 9007199254740990⟩⟩
    else deadCell

/-- A 1x1 grid whose only cell is alive with colour `(10, 20, 30)`. -/
def singleGrid : Grid :=
  fun _ _ => ⟨1, ⟨10, 20, 30⟩⟩

/-- An idle controller on the 1x1 grid. -/
def singleIdle : State :=
  { cols := 1, rows := 1, grid := singleGrid, running := false, tool := Tool.pen,
    penColor := ⟨255, 255, 255⟩, colorMixing := true, winnerColor := none, history := [] }

/-- A running controller on the 1x1 grid. -/
def singleRunning : State :=
  { singleIdle with running := true }

/-! ## History buffer -/

theorem historyPush_drop {α : Type} (xs : List α) (x : α) :
    historyPush (xs.drop (xs.length - HISTORY_LENGTH)) x
      = (xs ++ [x]).drop ((xs ++ [x]).length - HISTORY_LENGTH) := by
  unfold historyPush
  simp only [List.length_append, List.length_drop, List.length_singleton]
  by_cases h : xs.length < HISTORY_LENGTH
  · have h1 : xs.length - HISTORY_LENGTH = 0 := by omega
    have h2 : xs.length + 1 - HISTORY_LENGTH = 0 := by omega
    have h3 : ¬ (xs.length - 0 + 1 > HISTORY_LENGTH) := by omega
    rw [h1, h2, if_neg h3, List.drop_zero, List.drop_zero]
  · have h3 : xs.length - (xs.length - HISTORY_LENGTH) + 1 > HISTORY_LENGTH := by omega
    have h4 : xs.length + 1 - HISTORY_LENGTH = (xs.length - HISTORY_LENGTH) + 1 := by omega
    have h5 : xs.length - HISTORY_LENGTH + 1 ≤ xs.length := by
      have : 0 < HISTORY_LENGTH := by unfold HISTORY_LENGTH; omega
      omega
    have h6 : 1 ≤ (xs.drop (xs.length - HISTORY_LENGTH)).length := by
      rw [List.length_drop]; omega
    rw [if_pos h3, h4, ← List.drop_one, List.drop_append_of_le_length h6,
      List.drop_append_of_le_length h5, List.drop_drop]

theorem history_foldl_eq_drop {α : Type} (samples : List α) :
    samples.foldl historyPush [] = samples.drop (samples.length - HISTORY_LENGTH) := by
  induction samples using List.reverseRecOn with
  | nil => simp
  | append_singleton xs x ih =>
    rw [List.foldl_append, ih, List.foldl_cons, List.foldl_nil, historyPush_drop]

/-- Claim C6: starting from the empty buffer, applying the push-then-shift update to the
samples `s_1 .. s_n` leaves a buffer of length `min n 1000` that equals the last
`min n 1000` samples in chronological order; for `n = 1500` the length is exactly 1000
and the first element is `s_501`. -/
theorem history_fifo_bounded (samples : List ℚ) :
    (samples.foldl historyPush []).length = min samples.length 1000
    ∧ samples.foldl historyPush [] = samples.drop (samples.length - min samples.length 1000)
    ∧ (samples.length = 1500 →
        (samples.foldl historyPush []).length = 1000
        ∧ (samples.foldl historyPush [])[0]? = samples[500]?) := by
  rw [history_foldl_eq_drop]
  have hk : samples.length - min samples.length 1000 = samples.length - HISTORY_LENGTH := by
    unfold HISTORY_LENGTH; omega
  refine ⟨?_, ?_, ?_⟩
  · rw [List.length_drop]; unfold HISTORY_LENGTH; omega
  · rw [hk]
  · intro h
    refine ⟨?_, ?_⟩
    · rw [List.length_drop]; unfold HISTORY_LENGTH; omega
    · rw [h]; simp [HISTORY_LENGTH]

/-- The claim C6 statement applied to the 1500 samples `0, 1, .., 1499`. -/
theorem history_fifo_bounded_witness :
    ((List.map (fun n : Nat => (n : ℚ)) (List.range 1500)).foldl historyPush []).length = 1000
    ∧ ((List.map (fun n : Nat => (n : ℚ)) (List.range 1500)).foldl historyPush [])[0]?
        = (List.map (fun n : Nat => (n : ℚ)) (List.range 1500))[500]? :=
  (history_fifo_bounded (List.map (fun n : Nat => (n : ℚ)) (List.range 1500))).2.2
    (by rw [List.length_map, List.length_range])

/-! ## Keys: `split(',').map(Number)` undoes `join(',')` -/

theorem digitVal_digitChar (d : Nat) (h : d < 10) : digitVal (digitChar d) = d := by
  interval_cases d <;> decide

theorem digitChar_ne_comma (d : Nat) : digitChar d ≠ ',' := by
  unfold digitChar
  split <;> decide

theorem digitChar_ne_minus (d : Nat) : digitChar d ≠ '-' := by
  unfold digitChar
  split <;> decide

theorem natDigitsAux_parse (fuel : Nat) :
    ∀ (n : Nat) (acc : List Char), n < fuel →
      parseNat (natDigitsAux fuel n acc)
        = acc.foldl (fun a c => 10 * a + digitVal c) n := by
  induction fuel with
  | zero => intro n acc h; omega
  | succ fuel ih =>
    intro n acc h
    unfold natDigitsAux
    by_cases h10 : n < 10
    · rw [if_pos h10]
      unfold parseNat
      rw [List.foldl_cons, digitVal_digitChar n h10]
      simp
    · rw [if_neg h10, ih (n / 10) _ (by omega), List.foldl_cons,
        digitVal_digitChar (n % 10) (by omega)]
      congr 1
      omega

theorem natDigitsAux_chars (fuel : Nat) :
    ∀ (n : Nat) (acc : List Char) (c : Char), c ∈ natDigitsAux fuel n acc →
      c ∈ acc ∨ (c ≠ ',' ∧ c ≠ '-') := by
  induction fuel with
  | zero => intro n acc c h; exact Or.inl h
  | succ fuel ih =>
    intro n acc c h
    unfold natDigitsAux at h
    by_cases h10 : n < 10
    · rw [if_pos h10, List.mem_cons] at h
      rcases h with h | h
      · exact Or.inr (h ▸ ⟨digitChar_ne_comma n, digitChar_ne_minus n⟩)
      · exact Or.inl h
    · rw [if_neg h10] at h
      rcases ih _ _ c h with h1 | h1
      · rw [List.mem_cons] at h1
        rcases h1 with h1 | h1
        · exact Or.inr (h1 ▸ ⟨digitChar_ne_comma _, digitChar_ne_minus _⟩)
        · exact Or.inl h1
      · exact Or.inr h1

theorem natDigitsAux_ne_nil (fuel : Nat) :
    ∀ (n : Nat) (acc : List Char), fuel ≠ 0 ∨ acc ≠ [] → natDigitsAux fuel n acc ≠ [] := by
  induction fuel with
  | zero => intro n acc h; rcases h with h | h; exact absurd rfl h; exact h
  | succ fuel ih =>
    intro n acc _
    unfold natDigitsAux
    by_cases h10 : n < 10
    · rw [if_pos h10]; exact List.cons_ne_nil _ _
    · rw [if_neg h10]; exact ih _ _ (Or.inr (List.cons_ne_nil _ _))

theorem parseNat_natToString (n : Nat) : parseNat (natToString n) = n := by
  unfold natToString
  rw [natDigitsAux_parse (n + 1) n [] (by omega)]
  rfl

theorem natToString_chars (n : Nat) (c : Char) (h : c ∈ natToString n) :
    c ≠ ',' ∧ c ≠ '-' := by
  rcases natDigitsAux_chars _ _ _ c h with h1 | h1
  · exact absurd h1 (List.not_mem_nil c)
  · exact h1

theorem toNumber_numberToString (z : Int) : toNumber (numberToString z) = z := by
  unfold numberToString
  by_cases hz : z < 0
  · rw [if_pos hz]
    rw [toNumber, if_pos rfl, parseNat_natToString]
    omega
  · rw [if_neg hz]
    have hne : natToString z.natAbs ≠ [] := natDigitsAux_ne_nil _ _ _ (Or.inl (by omega))
    have hp := parseNat_natToString z.natAbs
    have hc := natToString_chars z.natAbs
    cases hs : natToString z.natAbs with
    | nil => exact absurd hs hne
    | cons c cs =>
      rw [hs] at hp hc
      rw [toNumber, if_neg (hc c (List.mem_cons_self c cs)).2, hp]
      omega

theorem numberToString_no_comma (z : Int) : ',' ∉ numberToString z := by
  intro h
  unfold numberToString at h
  by_cases hz : z < 0
  · rw [if_pos hz, List.mem_cons] at h
    rcases h with h | h
    · exact absurd h (by decide)
    · exact (natToString_chars _ _ h).1 rfl
  · rw [if_neg hz] at h
    exact (natToString_chars _ _ h).1 rfl

theorem splitComma_ne_nil (cs : List Char) : splitComma cs ≠ [] := by
  cases cs with
  | nil => simp [splitComma]
  | cons c cs =>
    unfold splitComma
    by_cases hc : c = ','
    · rw [if_pos hc]; exact List.cons_ne_nil _ _
    · rw [if_neg hc]; split <;> exact List.cons_ne_nil _ _

theorem splitComma_no_comma (a : List Char) (h : ',' ∉ a) : splitComma a = [a] := by
  induction a with
  | nil => rfl
  | cons c cs ih =>
    have hc : c ≠ ',' := fun e => h (e ▸ List.mem_cons_self c cs)
    have hcs : ',' ∉ cs := fun e => h (List.mem_cons_of_mem c e)
    unfold splitComma
    rw [if_neg hc, ih hcs]

theorem splitComma_append (a rest : List Char) (h : ',' ∉ a) :
    splitComma (a ++ ',' :: rest) = a :: splitComma rest := by
  induction a with
  | nil =>
    show splitComma (',' :: rest) = [] :: splitComma rest
    rw [splitComma, if_pos rfl]
  | cons c cs ih =>
    have hc : c ≠ ',' := fun e => h (e ▸ List.mem_cons_self c cs)
    have hcs : ',' ∉ cs := fun e => h (List.mem_cons_of_mem c e)
    show splitComma (c :: (cs ++ ',' :: rest)) = (c :: cs) :: splitComma rest
    rw [splitComma, if_neg hc, ih hcs]

/-- The model of `join` on one of the palette colours of `setup`. -/
theorem joinComma_palette : joinComma ⟨173, 216, 230⟩ = "173,216,230".toList := by decide

/-- The model of `split(',').map(Number)` on the same key. -/
theorem keyToColor_palette : keyToColor "173,216,230".toList = ⟨173, 216, 230⟩ := by decide

/-- The key of a colour with integer channels parses back to the same colour. -/
theorem keyToColor_joinComma (c : Color) : keyToColor (joinComma c) = c := by
  unfold keyToColor joinComma
  rw [splitComma_append _ _ (numberToString_no_comma c.r),
    splitComma_append _ _ (numberToString_no_comma c.g),
    splitComma_no_comma _ (numberToString_no_comma c.b)]
  simp only [List.map_cons, List.map_nil, toNumber_numberToString]

theorem joinComma_injective (c d : Color) (h : joinComma c = joinComma d) : c = d := by
  rw [← keyToColor_joinComma c, ← keyToColor_joinComma d, h]

theorem joinComma_eq_iff (c d : Color) : joinComma c = joinComma d ↔ c = d :=
  ⟨joinComma_injective c d, fun h => h ▸ rfl⟩

/-! ## Double arithmetic is exact below `2^53` -/

theorem bitLength_le (fuel : Nat) :
    ∀ n L : Nat, n < 2 ^ L → bitLength fuel n ≤ L := by
  induction fuel with
  | zero => intro n L _; exact Nat.zero_le L
  | succ fuel ih =>
    intro n L h
    unfold bitLength
    by_cases h0 : n = 0
    · rw [if_pos h0]; exact Nat.zero_le L
    · rw [if_neg h0]
      cases L with
      | zero => simp at h; exact absurd h h0
      | succ L =>
        have h2 : n / 2 < 2 ^ L := by
          rw [Nat.pow_succ] at h
          omega
        have := ih (n / 2) L h2
        omega

theorem roundNat53_exact (n : Nat) (h : n < 9007199254740992) : roundNat53 n = n := by
  have hk : bitLength n n - 53 = 0 := by
    have := bitLength_le n n 53 (by norm_num; exact h)
    omega
  unfold roundNat53
  simp only [hk]
  simp [Nat.mod_one]

theorem toDouble_exact (z : Int) (h1 : -9007199254740992 < z) (h2 : z < 9007199254740992) :
    toDouble z = z := by
  unfold toDouble
  rw [roundNat53_exact z.natAbs (by omega)]
  split_ifs <;> omega

theorem jsAdd_exact (a b : Int) (h1 : -9007199254740992 < a + b)
    (h2 : a + b < 9007199254740992) : jsAdd a b = a + b :=
  toDouble_exact (a + b) h1 h2

theorem jsSub_exact (a b : Int) (h1 : -9007199254740992 < a - b)
    (h2 : a - b < 9007199254740992) : jsSub a b = a - b :=
  toDouble_exact (a - b) h1 h2

set_option maxRecDepth 100000 in
/-- Three additions of `2^53 - 2` starting from 0: the last sum `3 * 2^53 - 6` lies half
way between two doubles and is rounded to `3 * 2^53 - 8`. -/
theorem jsAdd_rounds :
    jsAdd (jsAdd (jsAdd 0 9007199254740990) 9007199254740990) 9007199254740990
      = 27021597764222968 := by decide

set_option maxRecDepth 100000 in
/-- The quotient `(3 * 2^51 + 1) / 3` is rounded to the double `2^51 + 1/2`, which
`Math.round` takes to `2^51 + 1`, while the exactly rounded quotient is `2^51`. -/
theorem mathRoundDiv_rounds :
    mathRoundDiv (3 * 2 ^ 51 + 1) 3 = 2 ^ 51 + 1 ∧ roundDiv (3 * 2 ^ 51 + 1) 3 = 2 ^ 51 := by
  decide

theorem jsAdd_one_one : jsAdd 1 1 = 2 := by decide

theorem jsAdd_two_one : jsAdd 2 1 = 3 := by decide

set_option maxRecDepth 100000 in
/-- For every numerator up to `3 * 255` the double computation of
`Math.round(a / 3)` gives the exactly rounded quotient. -/
theorem mathRoundDiv_three_table :
    ∀ n : Nat, n < 766 → mathRoundDiv (Int.ofNat n) 3 = roundDiv (Int.ofNat n) 3 := by
  decide

theorem mathRoundDiv_three (s : Int) (h0 : 0 ≤ s) (h1 : s ≤ 765) :
    mathRoundDiv s 3 = roundDiv s 3 := by
  have h := mathRoundDiv_three_table s.toNat (by omega)
  have hs : Int.ofNat s.toNat = s := by
    show ((s.toNat : Nat) : Int) = s
    omega
  rw [hs] at h
  exact h

/-! ## The neighbourhood scan -/

theorem wrap_eq_torus (i n : Nat) (d : Int) (hd : -1 ≤ d) (hi : i < n) :
    wrap i d n = torus i d n := by
  unfold wrap torus
  rw [Int.tmod_eq_emod (by omega) (by omega), Int.add_emod_self]

theorem torus_zero (i n : Nat) (hi : i < n) : torus i 0 n = i := by
  unfold torus
  rw [Int.add_zero, Int.emod_eq_of_lt (by omega) (by omega)]
  rfl

theorem torus_pred (i n : Nat) (hi : i < n) :
    torus i (-1) n = if i = 0 then n - 1 else i - 1 := by
  unfold torus
  by_cases h0 : i = 0
  · rw [if_pos h0, ← Int.add_emod_self, Int.emod_eq_of_lt (by omega) (by omega)]
    omega
  · rw [if_neg h0, Int.emod_eq_of_lt (by omega) (by omega)]
    omega

theorem torus_succ (i n : Nat) (hi : i < n) :
    torus i 1 n = if i + 1 = n then 0 else i + 1 := by
  unfold torus
  by_cases h0 : i + 1 = n
  · rw [if_pos h0]
    have : ((i : Int) + 1) = (n : Int) := by omega
    rw [this, Int.emod_self]
    rfl
  · rw [if_neg h0, Int.emod_eq_of_lt (by omega) (by omega)]
    omega

theorem torus_lt (i n : Nat) (d : Int) (hn : 0 < n) : torus i d n < n := by
  unfold torus
  have h1 := Int.emod_nonneg ((i : Int) + d) (show (n : Int) ≠ 0 by omega)
  have h2 := Int.emod_lt_of_pos ((i : Int) + d) (show (0 : Int) < n by omega)
  omega

theorem scan_eq_foldl (grid : Grid) (cols rows i j : Nat) :
    scan grid cols rows i j = (window grid cols rows i j).foldl Acc.visit Acc.init := rfl

theorem window_eq (grid : Grid) (cols rows i j : Nat) (hi : i < cols) (hj : j < rows) :
    window grid cols rows i j
      = (neighbours grid cols rows i j).take 4
          ++ grid i j :: (neighbours grid cols rows i j).drop 4 := by
  have hx0 := wrap_eq_torus i cols 0 (by omega) hi
  have hy0 := wrap_eq_torus j rows 0 (by omega) hj
  rw [torus_zero i cols hi] at hx0
  rw [torus_zero j rows hj] at hy0
  simp only [window, offsets, neighbours, mooreOffsets, List.flatMap_cons, List.flatMap_nil,
    List.map_cons, List.map_nil, List.cons_append, List.nil_append, List.append_nil,
    List.take_succ_cons, List.take_zero, List.drop_succ_cons, List.drop_zero,
    wrap_eq_torus i cols (-1) (by omega) hi, wrap_eq_torus i cols 1 (by omega) hi,
    wrap_eq_torus j rows (-1) (by omega) hj, wrap_eq_torus j rows 1 (by omega) hj, hx0, hy0,
    torus_zero i cols hi, torus_zero j rows hj]

theorem visit_sum (acc : Acc) (c : Cell) : (acc.visit c).sum = jsAdd acc.sum c.alive := by
  unfold Acc.visit
  split_ifs <;> rfl

theorem visit_colorCount (acc : Acc) (c : Cell) :
    (acc.visit c).colorCount = if c.alive ≠ 0 then jsAdd acc.colorCount 1 else acc.colorCount := by
  unfold Acc.visit
  split_ifs <;> rfl

theorem visit_colorSum (acc : Acc) (c : Cell) :
    (acc.visit c).colorSum =
      if c.alive ≠ 0 then
        ⟨jsAdd acc.colorSum.r c.color.r, jsAdd acc.colorSum.g c.color.g,
          jsAdd acc.colorSum.b c.color.b⟩
      else acc.colorSum := by
  unfold Acc.visit
  split_ifs <;> rfl

theorem visit_colorMap (acc : Acc) (c : Cell) :
    (acc.visit c).colorMap =
      if c.alive ≠ 0 then colorMapIncr acc.colorMap (joinComma c.color) else acc.colorMap := by
  unfold Acc.visit
  split_ifs <;> rfl

/-- On cells with flags in `{0, 1}` the running sum stays far below `2^53`, so every
addition of the scan is exact. -/
theorem foldl_visit_sum (l : List Cell) :
    ∀ acc : Acc, (∀ c ∈ l, c.alive = 0 ∨ c.alive = 1) → 0 ≤ acc.sum →
      acc.sum + (l.length : Int) < 9007199254740992 →
      (l.foldl Acc.visit acc).sum = acc.sum + (l.map Cell.alive).sum := by
  induction l with
  | nil => intro acc _ _ _; simp
  | cons c l ih =>
    intro acc h h0 hb
    have hc := h c (List.mem_cons_self c l)
    simp only [List.length_cons, Nat.cast_add, Nat.cast_one] at hb
    have hl : (0 : Int) ≤ (l.length : Int) := Int.ofNat_nonneg _
    have hv : (acc.visit c).sum = acc.sum + c.alive := by
      rw [visit_sum, jsAdd_exact _ _ (by omega) (by omega)]
    rw [List.foldl_cons, ih (acc.visit c) (fun d hd => h d (List.mem_cons_of_mem c hd))
      (by rw [hv]; omega) (by rw [hv]; omega), hv, List.map_cons, List.sum_cons]
    omega

theorem foldl_visit_colorCount (l : List Cell) :
    ∀ acc : Acc, 0 ≤ acc.colorCount →
      acc.colorCount + (l.length : Int) < 9007199254740992 →
      (l.foldl Acc.visit acc).colorCount
        = acc.colorCount + ((l.filter (fun c => decide (c.alive ≠ 0))).length : Int) := by
  induction l with
  | nil => intro acc _ _; simp
  | cons c l ih =>
    intro acc h0 hb
    simp only [List.length_cons, Nat.cast_add, Nat.cast_one] at hb
    have hl : (0 : Int) ≤ (l.length : Int) := Int.ofNat_nonneg _
    rw [List.foldl_cons]
    by_cases hc : c.alive ≠ 0
    · have hv : (acc.visit c).colorCount = acc.colorCount + 1 := by
        rw [visit_colorCount, if_pos hc, jsAdd_exact _ _ (by omega) (by omega)]
      rw [ih (acc.visit c) (by rw [hv]; omega) (by rw [hv]; omega), hv,
        List.filter_cons_of_pos (by simpa using hc), List.length_cons]
      push_cast
      omega
    · have hv : (acc.visit c).colorCount = acc.colorCount := by
        rw [visit_colorCount, if_neg hc]
      rw [ih (acc.visit c) (by rw [hv]; omega) (by rw [hv]; omega), hv,
        List.filter_cons_of_neg (by simpa using hc)]

theorem foldl_visit_colorMap (l : List Cell) :
    ∀ acc : Acc, (l.foldl Acc.visit acc).colorMap
      = (l.filter (fun c => decide (c.alive ≠ 0))).foldl
          (fun m c => colorMapIncr m (joinComma c.color)) acc.colorMap := by
  induction l with
  | nil => intro acc; rfl
  | cons c l ih =>
    intro acc
    rw [List.foldl_cons, ih]
    by_cases hc : c.alive ≠ 0
    · rw [visit_colorMap, if_pos hc, List.filter_cons_of_pos (by simpa using hc),
        List.foldl_cons]
    · rw [visit_colorMap, if_neg hc, List.filter_cons_of_neg (by simpa using hc)]

/-- On alive cells with channels in `[0, 255]` the running colour sums stay far
below `2^53`, so every addition of the scan is exact. -/
theorem foldl_visit_colorSum (l : List Cell) :
    ∀ acc : Acc, (∀ c ∈ l, c.alive ≠ 0 → ChannelsOk c.color) →
      (0 ≤ acc.colorSum.r ∧ 0 ≤ acc.colorSum.g ∧ 0 ≤ acc.colorSum.b) →
      (acc.colorSum.r + 255 * (l.length : Int) < 9007199254740992
        ∧ acc.colorSum.g + 255 * (l.length : Int) < 9007199254740992
        ∧ acc.colorSum.b + 255 * (l.length : Int) < 9007199254740992) →
      (l.foldl Acc.visit acc).colorSum =
        ⟨acc.colorSum.r
            + ((l.filter (fun c => decide (c.alive ≠ 0))).map (fun c => c.color.r)).sum,
         acc.colorSum.g
            + ((l.filter (fun c => decide (c.alive ≠ 0))).map (fun c => c.color.g)).sum,
         acc.colorSum.b
            + ((l.filter (fun c => decide (c.alive ≠ 0))).map (fun c => c.color.b)).sum⟩ := by
  induction l with
  | nil => intro acc _ _ _; simp
  | cons c l ih =>
    intro acc h h0 hb
    simp only [List.length_cons, Nat.cast_add, Nat.cast_one] at hb
    have hl : (0 : Int) ≤ (l.length : Int) := Int.ofNat_nonneg _
    rw [List.foldl_cons]
    by_cases hc : c.alive ≠ 0
    · obtain ⟨hr, hg, hbl⟩ := h c (List.mem_cons_self c l) hc
      have hv : (acc.visit c).colorSum
          = ⟨acc.colorSum.r + c.color.r, acc.colorSum.g + c.color.g,
              acc.colorSum.b + c.color.b⟩ := by
        rw [visit_colorSum, if_pos hc, jsAdd_exact _ _ (by omega) (by omega),
          jsAdd_exact _ _ (by omega) (by omega), jsAdd_exact _ _ (by omega) (by omega)]
      rw [ih (acc.visit c) (fun d hd => h d (List.mem_cons_of_mem c hd))
        (by rw [hv]; simp only []; omega) (by rw [hv]; simp only []; omega), hv,
        List.filter_cons_of_pos (by simpa using hc)]
      simp only [List.map_cons, List.sum_cons, add_assoc]
    · have hv : (acc.visit c).colorSum = acc.colorSum := by
        rw [visit_colorSum, if_neg hc]
      rw [ih (acc.visit c) (fun d hd => h d (List.mem_cons_of_mem c hd))
        (by rw [hv]; exact h0) (by rw [hv]; omega), hv,
        List.filter_cons_of_neg (by simpa using hc)]

theorem sum_flags_eq_length (l : List Cell)
    (h : ∀ c ∈ l, c.alive = 0 ∨ c.alive = 1) :
    (l.map Cell.alive).sum = ((l.filter (fun c => decide (c.alive ≠ 0))).length : Int) := by
  induction l with
  | nil => rfl
  | cons c l ih =>
    have hc := h c (List.mem_cons_self c l)
    have ih2 := ih (fun d hd => h d (List.mem_cons_of_mem c hd))
    rw [List.map_cons, List.sum_cons, ih2]
    rcases hc with hc | hc
    · simp [List.filter_cons, hc]
    · simp [List.filter_cons, hc]
      omega

theorem neighbours_mem (grid : Grid) (cols rows i j : Nat) (hc : 0 < cols) (hr : 0 < rows)
    (c : Cell) (h : c ∈ neighbours grid cols rows i j) :
    ∃ a < cols, ∃ b < rows, c = grid a b := by
  unfold neighbours at h
  rw [List.mem_map] at h
  obtain ⟨d, _, hd⟩ := h
  exact ⟨_, torus_lt i cols d.1 hc, _, torus_lt j rows d.2 hr, hd.symm⟩

theorem neighbours_length (grid : Grid) (cols rows i j : Nat) :
    (neighbours grid cols rows i j).length = 8 := rfl

theorem window_length (grid : Grid) (cols rows i j : Nat) :
    (window grid cols rows i j).length = 9 := rfl

theorem window_mem (grid : Grid) (cols rows i j : Nat) (hi : i < cols) (hj : j < rows)
    (c : Cell) (h : c ∈ window grid cols rows i j) :
    ∃ a < cols, ∃ b < rows, c = grid a b := by
  rw [window_eq grid cols rows i j hi hj, List.mem_append, List.mem_cons] at h
  rcases h with h | h | h
  · exact neighbours_mem grid cols rows i j (by omega) (by omega) c (List.mem_of_mem_take h)
  · exact ⟨i, hi, j, hj, h⟩
  · exact neighbours_mem grid cols rows i j (by omega) (by omega) c (List.mem_of_mem_drop h)

theorem neighbourSum_eq_length (grid : Grid) (cols rows i j : Nat) (hc : 0 < cols)
    (hr : 0 < rows) (hf : FlagsOk grid cols rows) :
    neighbourSum grid cols rows i j = ((aliveNeighbours grid cols rows i j).length : Int) := by
  unfold neighbourSum aliveNeighbours
  apply sum_flags_eq_length
  intro c hcm
  obtain ⟨a, ha, b, hb, rfl⟩ := neighbours_mem grid cols rows i j hc hr c hcm
  exact hf a ha b hb

theorem aliveNeighbours_length_le (grid : Grid) (cols rows i j : Nat) :
    (aliveNeighbours grid cols rows i j).length ≤ 8 := by
  unfold aliveNeighbours
  exact (List.length_filter_le _ _).trans (le_of_eq (neighbours_length grid cols rows i j))

/-- On a grid with flags in `{0, 1}` the value of `sum` after `sum -= state` is the
neighbour count. -/
theorem scan_sum (grid : Grid) (cols rows i j : Nat) (hi : i < cols) (hj : j < rows)
    (hf : FlagsOk grid cols rows) :
    jsSub (scan grid cols rows i j).sum (grid i j).alive = neighbourSum grid cols rows i j := by
  have hw : ∀ c ∈ window grid cols rows i j, c.alive = 0 ∨ c.alive = 1 := by
    intro c hc
    obtain ⟨a, ha, b, hb, rfl⟩ := window_mem grid cols rows i j hi hj c hc
    exact hf a ha b hb
  have hs : (scan grid cols rows i j).sum
      = neighbourSum grid cols rows i j + (grid i j).alive := by
    rw [scan_eq_foldl, foldl_visit_sum _ _ hw (by simp [Acc.init])
      (by rw [window_length]; simp [Acc.init]), window_eq grid cols rows i j hi hj]
    unfold neighbourSum
    conv_rhs => rw [← List.take_append_drop 4 (neighbours grid cols rows i j)]
    simp only [List.map_append, List.map_cons, List.sum_append, List.sum_cons, Acc.init]
    omega
  have hn := neighbourSum_eq_length grid cols rows i j (by omega) (by omega) hf
  have hl := aliveNeighbours_length_le grid cols rows i j
  rw [hs, jsSub_exact _ _ (by omega) (by omega)]
  omega

theorem window_filter_dead (grid : Grid) (cols rows i j : Nat) (hi : i < cols) (hj : j < rows)
    (hdead : (grid i j).alive = 0) :
    (window grid cols rows i j).filter (fun c => decide (c.alive ≠ 0))
      = aliveNeighbours grid cols rows i j := by
  rw [window_eq grid cols rows i j hi hj]
  unfold aliveNeighbours
  conv_rhs => rw [← List.take_append_drop 4 (neighbours grid cols rows i j)]
  rw [List.filter_append, List.filter_append, List.filter_cons]
  simp [hdead]

theorem scan_colorMap_dead (grid : Grid) (cols rows i j : Nat) (hi : i < cols) (hj : j < rows)
    (hdead : (grid i j).alive = 0) :
    (scan grid cols rows i j).colorMap
      = (aliveNeighbours grid cols rows i j).foldl
          (fun m c => colorMapIncr m (joinComma c.color)) [] := by
  rw [scan_eq_foldl, foldl_visit_colorMap, window_filter_dead grid cols rows i j hi hj hdead]
  rfl

theorem scan_colorCount_dead (grid : Grid) (cols rows i j : Nat) (hi : i < cols)
    (hj : j < rows) (hdead : (grid i j).alive = 0) :
    (scan grid cols rows i j).colorCount = ((aliveNeighbours grid cols rows i j).length : Int) := by
  rw [scan_eq_foldl, foldl_visit_colorCount _ _ (by simp [Acc.init])
    (by rw [window_length]; simp [Acc.init]),
    window_filter_dead grid cols rows i j hi hj hdead]
  simp [Acc.init]

theorem scan_colorSum_dead (grid : Grid) (cols rows i j : Nat) (hi : i < cols) (hj : j < rows)
    (hdead : (grid i j).alive = 0)
    (hcol : ∀ c ∈ aliveNeighbours grid cols rows i j, ChannelsOk c.color) :
    (scan grid cols rows i j).colorSum =
      ⟨channelSum Color.r grid cols rows i j, channelSum Color.g grid cols rows i j,
        channelSum Color.b grid cols rows i j⟩ := by
  have hw : ∀ c ∈ window grid cols rows i j, c.alive ≠ 0 → ChannelsOk c.color := by
    intro c hc hal
    apply hcol
    rw [← window_filter_dead grid cols rows i j hi hj hdead, List.mem_filter]
    exact ⟨hc, by simpa using hal⟩
  rw [scan_eq_foldl, foldl_visit_colorSum _ _ hw (by simp [Acc.init])
    (by rw [window_length]; simp [Acc.init]),
    window_filter_dead grid cols rows i j hi hj hdead]
  simp [Acc.init, channelSum]

theorem stepCell_eq (grid : Grid) (cols rows : Nat) (colorMixing : Bool) (i j : Nat)
    (hi : i < cols) (hj : j < rows) (hf : FlagsOk grid cols rows) :
    stepCell grid cols rows colorMixing i j =
      if (grid i j).alive = 1
          ∧ (neighbourSum grid cols rows i j < 2 ∨ neighbourSum grid cols rows i j > 3) then
        deadCell
      else if (grid i j).alive = 0 ∧ neighbourSum grid cols rows i j = 3 then
        ⟨1, birthColor colorMixing (scan grid cols rows i j)⟩
      else if (grid i j).alive ≠ 0 then ⟨1, (grid i j).color⟩
      else deadCell := by
  unfold stepCell
  simp only [scan_sum grid cols rows i j hi hj hf]

/-! ## Conway's rule and the blinker -/

theorem stepCell_alive (grid : Grid) (cols rows : Nat) (colorMixing : Bool) (i j : Nat)
    (hi : i < cols) (hj : j < rows) (hf : FlagsOk grid cols rows) :
    (stepCell grid cols rows colorMixing i j).alive
      = conway (grid i j).alive (neighbourSum grid cols rows i j) := by
  rw [stepCell_eq grid cols rows colorMixing i j hi hj hf]
  unfold conway deadCell
  rcases hf i hi j hj with h | h <;> rw [h] <;> split_ifs <;> first | rfl | omega

theorem torus_pred_cases (i n : Nat) (hi : i < n) :
    (i = 0 ∧ torus i (-1) n = n - 1) ∨ (0 < i ∧ torus i (-1) n + 1 = i) := by
  rw [torus_pred i n hi]
  by_cases h : i = 0
  · rw [if_pos h]; exact Or.inl ⟨h, rfl⟩
  · rw [if_neg h]; exact Or.inr ⟨by omega, by omega⟩

theorem torus_succ_cases (i n : Nat) (hi : i < n) :
    (i + 1 = n ∧ torus i 1 n = 0) ∨ (i + 1 < n ∧ torus i 1 n = i + 1) := by
  rw [torus_succ i n hi]
  by_cases h : i + 1 = n
  · rw [if_pos h]; exact Or.inl ⟨h, rfl⟩
  · rw [if_neg h]; exact Or.inr ⟨by omega, rfl⟩

/-- Among a position and its two ring neighbours, the number of those equal to
`c` is 1 when the position is near `c` and 0 otherwise. -/
theorem count_eq_window (n c a : Nat) (hn : 3 ≤ n) (hc : c < n) (ha : a < n) :
    (if torus a (-1) n = c then (1 : Int) else 0) + (if a = c then 1 else 0)
      + (if torus a 1 n = c then 1 else 0) = if near n c a then 1 else 0 := by
  unfold near
  have h1 := torus_pred_cases a n ha
  have h2 := torus_succ_cases a n ha
  have h3 := torus_pred_cases c n hc
  have h4 := torus_succ_cases c n hc
  split_ifs <;> omega

/-- Among a position and its two ring neighbours, the number of those near `c`
is 3 at `c`, 2 at the two neighbours of `c`, and at most 1 elsewhere. -/
theorem count_near_window (n c a : Nat) (hn : 5 ≤ n) (hc : c < n) (ha : a < n) :
    (a = c → (if near n c (torus a (-1) n) then (1 : Int) else 0) + (if near n c a then 1 else 0)
      + (if near n c (torus a 1 n) then 1 else 0) = 3)
    ∧ (a ≠ c → near n c a →
        (if near n c (torus a (-1) n) then (1 : Int) else 0) + (if near n c a then 1 else 0)
      + (if near n c (torus a 1 n) then 1 else 0) = 2)
    ∧ (¬ near n c a →
        0 ≤ (if near n c (torus a (-1) n) then (1 : Int) else 0) + (if near n c a then 1 else 0)
          + (if near n c (torus a 1 n) then 1 else 0)
        ∧ (if near n c (torus a (-1) n) then (1 : Int) else 0) + (if near n c a then 1 else 0)
          + (if near n c (torus a 1 n) then 1 else 0) ≤ 1) := by
  unfold near
  have h1 := torus_pred_cases a n ha
  have h2 := torus_succ_cases a n ha
  have h3 := torus_pred_cases c n hc
  have h4 := torus_succ_cases c n hc
  refine ⟨?_, ?_, ?_⟩
  · intro h; split_ifs <;> omega
  · intro h h'; split_ifs <;> omega
  · intro h; split_ifs <;> omega

theorem ind_and (P Q : Prop) [Decidable P] [Decidable Q] :
    (if P ∧ Q then (1 : Int) else 0) = (if P then 1 else 0) * (if Q then 1 else 0) := by
  by_cases hP : P <;> by_cases hQ : Q <;> simp [hP, hQ]

/-- On a grid whose alive flags are a product `A a * B b`, the neighbour count is
the product of the two one-dimensional window sums minus the centre. -/
theorem neighbourSum_product (grid : Grid) (cols rows i j : Nat) (A B : Nat → Int)
    (hpat : ∀ a < cols, ∀ b < rows, (grid a b).alive = A a * B b)
    (hi : i < cols) (hj : j < rows) :
    neighbourSum grid cols rows i j
      = (A (torus i (-1) cols) + A i + A (torus i 1 cols))
          * (B (torus j (-1) rows) + B j + B (torus j 1 rows)) - A i * B j := by
  have hc : 0 < cols := by omega
  have hr : 0 < rows := by omega
  have hp := torus_lt i cols (-1) hc
  have hs := torus_lt i cols 1 hc
  have hq := torus_lt j rows (-1) hr
  have ht := torus_lt j rows 1 hr
  unfold neighbourSum neighbours mooreOffsets
  simp only [List.map_cons, List.map_nil, List.sum_cons, List.sum_nil,
    torus_zero i cols hi, torus_zero j rows hj,
    hpat _ hp _ hq, hpat _ hp _ hj, hpat _ hp _ ht, hpat _ hi _ hq, hpat _ hi _ ht,
    hpat _ hs _ hq, hpat _ hs _ hj, hpat _ hs _ ht]
  ring

/-- The arithmetic core of the blinker: with `nr`, `e` the indicators of "near the
centre" and "at the centre" along the blinker's axis, `S` the window count of `nr`,
and `e2`, `nr2` the same indicators along the other axis, Conway's rule turns
the pattern `nr * e2` into `e * nr2`. -/
theorem conway_blinker (e nr S e2 nr2 : Int)
    (he : e = 0 ∨ e = 1) (hnr : nr = 0 ∨ nr = 1) (he2 : e2 = 0 ∨ e2 = 1)
    (hnr2 : nr2 = 0 ∨ nr2 = 1) (h1 : e = 1 → nr = 1) (h2 : e2 = 1 → nr2 = 1)
    (hS3 : e = 1 → S = 3) (hS2 : e = 0 → nr = 1 → S = 2) (hS1 : nr = 0 → 0 ≤ S ∧ S ≤ 1) :
    conway (nr * e2) (S * nr2 - nr * e2) = e * nr2 := by
  unfold conway
  rcases he with he | he <;> rcases hnr with hnr | hnr <;> rcases he2 with he2 | he2 <;>
    rcases hnr2 with hnr2 | hnr2 <;> subst he hnr he2 hnr2 <;>
    simp only [mul_zero, mul_one, zero_mul, one_mul, sub_zero] <;>
    simp only [true_implies, false_implies, one_ne_zero, zero_ne_one, forall_const]
      at h1 h2 hS3 hS2 hS1 <;>
    split_ifs <;> first | omega | simp_all

theorem ind_cases (P : Prop) [Decidable P] :
    (if P then (1 : Int) else 0) = 0 ∨ (if P then (1 : Int) else 0) = 1 := by
  by_cases h : P <;> simp [h]

theorem step_blinkerH (grid : Grid) (cols rows : Nat) (colorMixing : Bool) (x y : Nat)
    (hc : 5 ≤ cols) (hr : 3 ≤ rows) (hx : x < cols) (hy : y < rows)
    (h : isBlinkerH grid cols rows x y) :
    isBlinkerV (step grid cols rows colorMixing) cols rows x y := by
  intro a ha b hb
  have hpat : ∀ a < cols, ∀ b < rows, (grid a b).alive
      = (fun a => if near cols x a then (1 : Int) else 0) a
        * (fun b => if b = y then (1 : Int) else 0) b := by
    intro a ha b hb
    rw [h a ha b hb, ind_and]
  have h01 : FlagsOk grid cols rows := by
    intro a ha b hb
    rw [h a ha b hb]; exact ind_cases _
  show (stepCell grid cols rows colorMixing a b).alive = _
  rw [stepCell_alive grid cols rows colorMixing a b ha hb h01,
    neighbourSum_product grid cols rows a b _ _ hpat ha hb, hpat a ha b hb]
  simp only []
  obtain ⟨hS3, hS2, hS1⟩ := count_near_window cols x a hc hx ha
  have hE := count_eq_window rows y b hr hy hb
  rw [hE, ind_and]
  apply conway_blinker
  · exact ind_cases _
  · exact ind_cases _
  · exact ind_cases _
  · exact ind_cases _
  · intro he
    have hax : a = x := by by_contra hne; simp [hne] at he
    simp [near, hax]
  · intro he
    have hby : b = y := by by_contra hne; simp [hne] at he
    simp [near, hby]
  · intro he
    have hax : a = x := by by_contra hne; simp [hne] at he
    exact hS3 hax
  · intro he hn
    have hax : a ≠ x := by intro hax; simp [hax] at he
    have hna : near cols x a := by by_contra hne; simp [hne] at hn
    exact hS2 hax hna
  · intro hn
    have hna : ¬ near cols x a := by intro hna; simp [hna] at hn
    exact hS1 hna

theorem step_blinkerV (grid : Grid) (cols rows : Nat) (colorMixing : Bool) (x y : Nat)
    (hc : 3 ≤ cols) (hr : 5 ≤ rows) (hx : x < cols) (hy : y < rows)
    (h : isBlinkerV grid cols rows x y) :
    isBlinkerH (step grid cols rows colorMixing) cols rows x y := by
  intro a ha b hb
  have hpat : ∀ a < cols, ∀ b < rows, (grid a b).alive
      = (fun a => if a = x then (1 : Int) else 0) a
        * (fun b => if near rows y b then (1 : Int) else 0) b := by
    intro a ha b hb
    rw [h a ha b hb, ind_and]
  have h01 : FlagsOk grid cols rows := by
    intro a ha b hb
    rw [h a ha b hb]; exact ind_cases _
  show (stepCell grid cols rows colorMixing a b).alive = _
  rw [stepCell_alive grid cols rows colorMixing a b ha hb h01,
    neighbourSum_product grid cols rows a b _ _ hpat ha hb, hpat a ha b hb]
  simp only []
  obtain ⟨hS3, hS2, hS1⟩ := count_near_window rows y b hr hy hb
  have hE := count_eq_window cols x a hc hx ha
  rw [hE, ind_and]
  have key := conway_blinker (if b = y then (1 : Int) else 0)
    (if near rows y b then (1 : Int) else 0)
    ((if near rows y (torus b (-1) rows) then (1 : Int) else 0)
      + (if near rows y b then 1 else 0) + (if near rows y (torus b 1 rows) then 1 else 0))
    (if a = x then (1 : Int) else 0) (if near cols x a then (1 : Int) else 0)
    (ind_cases _) (ind_cases _) (ind_cases _) (ind_cases _)
    (by
      intro he
      have hby : b = y := by by_contra hne; simp [hne] at he
      simp [near, hby])
    (by
      intro he
      have hax : a = x := by by_contra hne; simp [hne] at he
      simp [near, hax])
    (by
      intro he
      have hby : b = y := by by_contra hne; simp [hne] at he
      exact hS3 hby)
    (by
      intro he hn
      have hby : b ≠ y := by intro hby; simp [hby] at he
      have hnb : near rows y b := by by_contra hne; simp [hne] at hn
      exact hS2 hby hnb)
    (by
      intro hn
      have hnb : ¬ near rows y b := by intro hnb; simp [hnb] at hn
      exact hS1 hnb)
  rw [mul_comm (if near rows y b then (1 : Int) else 0) (if a = x then (1 : Int) else 0),
    mul_comm _ (if near cols x a then (1 : Int) else 0),
    mul_comm (if b = y then (1 : Int) else 0) (if near cols x a then (1 : Int) else 0)] at key
  exact key

theorem step_flagsOk (grid : Grid) (cols rows : Nat) (colorMixing : Bool) :
    FlagsOk (step grid cols rows colorMixing) cols rows := by
  intro a _ b _
  show (stepCell grid cols rows colorMixing a b).alive = 0
    ∨ (stepCell grid cols rows colorMixing a b).alive = 1
  unfold stepCell deadCell
  simp only []
  split_ifs <;> simp

/-- Claim C1: on a grid with `cols ≥ 1`, `rows ≥ 1` and alive flags in `{0, 1}`, for either
colour policy, the alive flag that the step block writes at `(i, j)` is again 0 or 1 and
is 1 exactly when (old flag 1 and `n` is 2 or 3) or (old flag 0 and `n = 3`), where `n`
is the sum of the alive flags at the eight positions `((i+dx) mod cols, (j+dy) mod rows)`;
the index the code computes for offset `-1` at `0` is `cols-1` (resp. `rows-1`), so the
first neighbour counted for `(0, 0)` is the cell `(cols-1, rows-1)`; and on a grid of at
least 5x5 a three-cell blinker (horizontal or vertical, centred anywhere on the torus)
has the same alive/dead pattern after two steps, whatever policy each step uses. -/
theorem step_follows_conway (grid : Grid) (cols rows : Nat) (colorMixing : Bool)
    (hc : 1 ≤ cols) (hr : 1 ≤ rows) (hf : FlagsOk grid cols rows) :
    (∀ i < cols, ∀ j < rows,
      ((step grid cols rows colorMixing i j).alive = 0
        ∨ (step grid cols rows colorMixing i j).alive = 1)
      ∧ ((step grid cols rows colorMixing i j).alive = 1 ↔
          ((grid i j).alive = 1 ∧ (neighbourSum grid cols rows i j = 2
              ∨ neighbourSum grid cols rows i j = 3))
          ∨ ((grid i j).alive = 0 ∧ neighbourSum grid cols rows i j = 3)))
    ∧ (wrap 0 (-1) cols = cols - 1 ∧ wrap 0 (-1) rows = rows - 1
        ∧ (neighbours grid cols rows 0 0).head? = some (grid (cols - 1) (rows - 1))
        ∧ neighbourSum grid cols rows 0 0
            = (grid (cols - 1) (rows - 1)).alive
              + (((neighbours grid cols rows 0 0).tail).map Cell.alive).sum)
    ∧ (5 ≤ cols → 5 ≤ rows → ∀ x < cols, ∀ y < rows,
        isBlinkerH grid cols rows x y ∨ isBlinkerV grid cols rows x y →
        ∀ colorMixing2 : Bool, ∀ i < cols, ∀ j < rows,
          (step (step grid cols rows colorMixing) cols rows colorMixing2 i j).alive
            = (grid i j).alive) := by
  refine ⟨?_, ?_, ?_⟩
  · intro i hi j hj
    refine ⟨step_flagsOk grid cols rows colorMixing i hi j hj, ?_⟩
    show (stepCell grid cols rows colorMixing i j).alive = 1 ↔ _
    rw [stepCell_alive grid cols rows colorMixing i j hi hj hf]
    unfold conway
    split_ifs with h
    · simp [h]
    · simp [h]
  · have hx : torus 0 (-1) cols = cols - 1 := by
      rw [torus_pred 0 cols (by omega), if_pos rfl]
    have hy : torus 0 (-1) rows = rows - 1 := by
      rw [torus_pred 0 rows (by omega), if_pos rfl]
    refine ⟨?_, ?_, ?_, ?_⟩
    · rw [wrap_eq_torus 0 cols (-1) (by omega) (by omega), hx]
    · rw [wrap_eq_torus 0 rows (-1) (by omega) (by omega), hy]
    · simp only [neighbours, mooreOffsets, List.map_cons, List.head?_cons, hx, hy]
    · simp only [neighbourSum, neighbours, mooreOffsets, List.map_cons, List.map_nil,
        List.sum_cons, List.tail_cons, hx, hy]
  · intro hc5 hr5 x hx y hy hb m2 i hi j hj
    rcases hb with hb | hb
    · have h1 := step_blinkerH grid cols rows colorMixing x y hc5 (by omega) hx hy hb
      have h2 := step_blinkerV _ cols rows m2 x y (by omega) hr5 hx hy h1
      rw [h2 i hi j hj, hb i hi j hj]
    · have h1 := step_blinkerV grid cols rows colorMixing x y (by omega) hr5 hx hy hb
      have h2 := step_blinkerH _ cols rows m2 x y hc5 (by omega) hx hy h1
      rw [h2 i hi j hj, hb i hi j hj]

/-! ## Birth colours -/

theorem roundDiv_eq_floor (a b : Int) (hb : 0 < b) :
    roundDiv a b = ⌊(a : ℚ) / (b : ℚ) + 1 / 2⌋ := by
  symm
  rw [Int.floor_eq_iff]
  unfold roundDiv
  have hb2 : (0 : Int) < 2 * b := by omega
  have h1 : 2 * b * ((2 * a + b) / (2 * b)) ≤ 2 * a + b :=
    Int.mul_ediv_self_le (by omega)
  have h2 : 2 * a + b < 2 * b * ((2 * a + b) / (2 * b)) + 2 * b :=
    Int.lt_mul_ediv_self_add hb2
  have hbq : (0 : ℚ) < (b : ℚ) := by exact_mod_cast hb
  have h1q : (2 : ℚ) * b * (((2 * a + b) / (2 * b) : Int) : ℚ) ≤ 2 * a + b := by
    exact_mod_cast h1
  have h2q : (2 : ℚ) * a + b < 2 * b * (((2 * a + b) / (2 * b) : Int) : ℚ) + 2 * b := by
    exact_mod_cast h2
  constructor
  · rw [← sub_nonneg]
    have : (a : ℚ) / b + 1 / 2 - (((2 * a + b) / (2 * b) : Int) : ℚ)
        = (2 * a + b - 2 * b * (((2 * a + b) / (2 * b) : Int) : ℚ)) / (2 * b) := by
      field_simp
      ring
    rw [this]
    apply div_nonneg
    · linarith
    · linarith
  · rw [← sub_pos]
    have : (((2 * a + b) / (2 * b) : Int) : ℚ) + 1 - ((a : ℚ) / b + 1 / 2)
        = (2 * b * (((2 * a + b) / (2 * b) : Int) : ℚ) + 2 * b - (2 * a + b)) / (2 * b) := by
      field_simp
      ring
    rw [this]
    apply div_pos
    · linarith
    · linarith

theorem roundDiv_three (s : Int) :
    3 * roundDiv s 3 - 1 ≤ s ∧ s ≤ 3 * roundDiv s 3 + 1 := by
  unfold roundDiv
  omega

theorem roundDiv_three_bounds (s : Int) (h0 : 0 ≤ s) (h1 : s ≤ 765) :
    0 ≤ roundDiv s 3 ∧ roundDiv s 3 ≤ 255 := by
  unfold roundDiv
  omega

theorem roundDiv_three_mul (c : Int) : roundDiv (c + (c + c)) 3 = c := by
  unfold roundDiv
  omega

theorem aliveNeighbours_mem (grid : Grid) (cols rows i j : Nat) (hc : 0 < cols)
    (hr : 0 < rows) (c : Cell) (h : c ∈ aliveNeighbours grid cols rows i j) :
    c.alive ≠ 0 ∧ ∃ a < cols, ∃ b < rows, c = grid a b := by
  unfold aliveNeighbours at h
  rw [List.mem_filter] at h
  exact ⟨by simpa using h.2, neighbours_mem grid cols rows i j hc hr c h.1⟩

/-- A dead cell with neighbour count 3 on a grid with flags in `{0, 1}` has exactly
three alive neighbours. -/
theorem aliveNeighbours_three (grid : Grid) (cols rows i j : Nat) (hc : 0 < cols)
    (hr : 0 < rows) (hf : FlagsOk grid cols rows)
    (hn : neighbourSum grid cols rows i j = 3) :
    ∃ n1 n2 n3, aliveNeighbours grid cols rows i j = [n1, n2, n3] := by
  rw [neighbourSum_eq_length grid cols rows i j hc hr hf] at hn
  exact List.length_eq_three.mp (by exact_mod_cast hn)

theorem stepCell_birth (grid : Grid) (cols rows : Nat) (colorMixing : Bool) (i j : Nat)
    (hi : i < cols) (hj : j < rows) (hf : FlagsOk grid cols rows)
    (hdead : (grid i j).alive = 0) (hn : neighbourSum grid cols rows i j = 3) :
    stepCell grid cols rows colorMixing i j
      = ⟨1, birthColor colorMixing (scan grid cols rows i j)⟩ := by
  rw [stepCell_eq grid cols rows colorMixing i j hi hj hf, hdead, hn]
  simp

theorem channelSum_perm (ch : Color → Int) (grid : Grid) (cols rows i j : Nat)
    (l : List Color)
    (h : ((aliveNeighbours grid cols rows i j).map Cell.color).Perm l) :
    channelSum ch grid cols rows i j = (l.map ch).sum := by
  unfold channelSum
  rw [← (h.map ch).sum_eq, List.map_map]
  rfl

theorem channelSum_bounds (ch : Color → Int) (grid : Grid) (cols rows i j : Nat)
    (hc : 0 < cols) (hr : 0 < rows)
    (hch : ∀ a < cols, ∀ b < rows, 0 ≤ ch (grid a b).color ∧ ch (grid a b).color ≤ 255)
    (hlen : (aliveNeighbours grid cols rows i j).length = 3) :
    0 ≤ channelSum ch grid cols rows i j ∧ channelSum ch grid cols rows i j ≤ 765 := by
  obtain ⟨n1, n2, n3, h3⟩ := List.length_eq_three.mp hlen
  have hm : ∀ c ∈ aliveNeighbours grid cols rows i j, 0 ≤ ch c.color ∧ ch c.color ≤ 255 := by
    intro c hcm
    obtain ⟨_, a, ha, b, hb, rfl⟩ := aliveNeighbours_mem grid cols rows i j hc hr c hcm
    exact hch a ha b hb
  unfold channelSum
  rw [h3] at hm ⊢
  have b1 := hm n1 (by simp)
  have b2 := hm n2 (by simp)
  have b3 := hm n3 (by simp)
  simp only [List.map_cons, List.map_nil, List.sum_cons, List.sum_nil]
  omega

/-- Claim C2: in colour-mixing mode, on a grid with alive flags in `{0, 1}` and colour
channels in `[0, 255]`, a cell that is born (dead, neighbour sum 3) sees `colorCount = 3`
(so the white fallback is not taken), and each channel of its new colour is the channel
sum over its three alive toroidal neighbours divided by 3 and rounded to the nearest
integer (the floor of `sum / 3 + 1/2`, at distance at most 1/3 from `sum / 3`), which lies
in `[0, 255]`; for neighbour colours `(0,0,0)`, `(255,255,255)`, `(0,255,0)` in any order
the born colour is `(85,170,85)`. -/
theorem mixing_birth_is_rounded_mean (grid : Grid) (cols rows i j : Nat)
    (hi : i < cols) (hj : j < rows) (hf : FlagsOk grid cols rows)
    (hcol : ColorsOk grid cols rows) (hdead : (grid i j).alive = 0)
    (hn : neighbourSum grid cols rows i j = 3) :
    (scan grid cols rows i j).colorCount = 3
    ∧ (aliveNeighbours grid cols rows i j).length = 3
    ∧ step grid cols rows true i j
        = ⟨1, ⟨roundDiv (channelSum Color.r grid cols rows i j) 3,
               roundDiv (channelSum Color.g grid cols rows i j) 3,
               roundDiv (channelSum Color.b grid cols rows i j) 3⟩⟩
    ∧ ((step grid cols rows true i j).color.r
          = ⌊((channelSum Color.r grid cols rows i j : Int) : ℚ) / 3 + 1 / 2⌋
        ∧ (step grid cols rows true i j).color.g
          = ⌊((channelSum Color.g grid cols rows i j : Int) : ℚ) / 3 + 1 / 2⌋
        ∧ (step grid cols rows true i j).color.b
          = ⌊((channelSum Color.b grid cols rows i j : Int) : ℚ) / 3 + 1 / 2⌋)
    ∧ (|3 * (step grid cols rows true i j).color.r - channelSum Color.r grid cols rows i j| ≤ 1
        ∧ |3 * (step grid cols rows true i j).color.g
            - channelSum Color.g grid cols rows i j| ≤ 1
        ∧ |3 * (step grid cols rows true i j).color.b
            - channelSum Color.b grid cols rows i j| ≤ 1)
    ∧ ((0 ≤ (step grid cols rows true i j).color.r ∧ (step grid cols rows true i j).color.r ≤ 255)
        ∧ (0 ≤ (step grid cols rows true i j).color.g
            ∧ (step grid cols rows true i j).color.g ≤ 255)
        ∧ (0 ≤ (step grid cols rows true i j).color.b
            ∧ (step grid cols rows true i j).color.b ≤ 255))
    ∧ (((aliveNeighbours grid cols rows i j).map Cell.color).Perm
          [⟨0, 0, 0⟩, ⟨255, 255, 255⟩, ⟨0, 255, 0⟩] →
        (step grid cols rows true i j).color = ⟨85, 170, 85⟩) := by
  have hc : 0 < cols := by omega
  have hr : 0 < rows := by omega
  have hlen : (aliveNeighbours grid cols rows i j).length = 3 := by
    have := neighbourSum_eq_length grid cols rows i j hc hr hf
    rw [hn] at this
    exact_mod_cast this.symm
  have hcount : (scan grid cols rows i j).colorCount = 3 := by
    rw [scan_colorCount_dead grid cols rows i j hi hj hdead, hlen]
    rfl
  have br := channelSum_bounds Color.r grid cols rows i j hc hr
    (fun a ha b hb => (hcol a ha b hb).1) hlen
  have bg := channelSum_bounds Color.g grid cols rows i j hc hr
    (fun a ha b hb => (hcol a ha b hb).2.1) hlen
  have bb := channelSum_bounds Color.b grid cols rows i j hc hr
    (fun a ha b hb => (hcol a ha b hb).2.2) hlen
  have hch : ∀ c ∈ aliveNeighbours grid cols rows i j, ChannelsOk c.color := by
    intro c hcm
    obtain ⟨_, a, ha, b, hb, rfl⟩ := aliveNeighbours_mem grid cols rows i j hc hr c hcm
    exact hcol a ha b hb
  have hstep : step grid cols rows true i j
      = ⟨1, ⟨roundDiv (channelSum Color.r grid cols rows i j) 3,
             roundDiv (channelSum Color.g grid cols rows i j) 3,
             roundDiv (channelSum Color.b grid cols rows i j) 3⟩⟩ := by
    show stepCell grid cols rows true i j = _
    rw [stepCell_birth grid cols rows true i j hi hj hf hdead hn]
    unfold birthColor
    rw [hcount, scan_colorSum_dead grid cols rows i j hi hj hdead hch]
    simp only [if_true, mathRoundDiv_three _ br.1 br.2, mathRoundDiv_three _ bg.1 bg.2,
      mathRoundDiv_three _ bb.1 bb.2]
    simp
  refine ⟨hcount, hlen, hstep, ?_, ?_, ?_, ?_⟩
  · rw [hstep]
    refine ⟨?_, ?_, ?_⟩
    · simpa using roundDiv_eq_floor (channelSum Color.r grid cols rows i j) 3 (by decide)
    · simpa using roundDiv_eq_floor (channelSum Color.g grid cols rows i j) 3 (by decide)
    · simpa using roundDiv_eq_floor (channelSum Color.b grid cols rows i j) 3 (by decide)
  · rw [hstep]
    have hr3 := roundDiv_three (channelSum Color.r grid cols rows i j)
    have hg3 := roundDiv_three (channelSum Color.g grid cols rows i j)
    have hb3 := roundDiv_three (channelSum Color.b grid cols rows i j)
    refine ⟨?_, ?_, ?_⟩ <;> rw [abs_le] <;> constructor <;> simp only [] <;> omega
  · rw [hstep]
    exact ⟨roundDiv_three_bounds _ br.1 br.2, roundDiv_three_bounds _ bg.1 bg.2,
      roundDiv_three_bounds _ bb.1 bb.2⟩
  · intro hp
    rw [hstep, channelSum_perm Color.r grid cols rows i j _ hp,
      channelSum_perm Color.g grid cols rows i j _ hp,
      channelSum_perm Color.b grid cols rows i j _ hp]
    decide

theorem majority_three (c1 c2 c3 : Color) :
    majorityColor ([c1, c2, c3].foldl (fun m c => colorMapIncr m (joinComma c)) [])
      = if c1 = c2 ∨ c1 = c3 then c1 else if c2 = c3 then c2 else c1 := by
  by_cases h12 : c1 = c2 <;> by_cases h13 : c1 = c3 <;> by_cases h23 : c2 = c3 <;>
    (try subst h12) <;> (try subst h13) <;> (try subst h23) <;>
    simp_all [colorMapIncr, majorityColor, joinComma_eq_iff, keyToColor_joinComma,
      jsAdd_one_one, jsAdd_two_one]

theorem foldl_colorMap_map (l : List Cell) (m : List (Key × Int)) :
    l.foldl (fun m c => colorMapIncr m (joinComma c.color)) m
      = (l.map Cell.color).foldl (fun m c => colorMapIncr m (joinComma c)) m := by
  rw [List.foldl_map]

theorem majority_birth_formula (grid : Grid) (cols rows i j : Nat)
    (hi : i < cols) (hj : j < rows) (hf : FlagsOk grid cols rows)
    (hdead : (grid i j).alive = 0) (hn : neighbourSum grid cols rows i j = 3) :
    ∃ c1 c2 c3, neighbourColors grid cols rows i j = [c1, c2, c3]
      ∧ step grid cols rows false i j
          = ⟨1, if c1 = c2 ∨ c1 = c3 then c1 else if c2 = c3 then c2 else c1⟩ := by
  obtain ⟨n1, n2, n3, h3⟩ :=
    aliveNeighbours_three grid cols rows i j (by omega) (by omega) hf hn
  refine ⟨n1.color, n2.color, n3.color, ?_, ?_⟩
  · unfold neighbourColors
    rw [h3]
    rfl
  · show stepCell grid cols rows false i j = _
    rw [stepCell_birth grid cols rows false i j hi hj hf hdead hn]
    unfold birthColor
    rw [scan_colorMap_dead grid cols rows i j hi hj hdead, h3]
    simp only [foldl_colorMap_map, List.map_cons, List.map_nil]
    rw [majority_three]
    simp

/-- Claim C3: in majority mode, on a grid with alive flags in `{0, 1}`, a cell that is
born (dead, neighbour sum 3) has exactly three alive toroidal neighbours and takes a
colour with the highest occurrence count among their colours: a colour carried by at
least two of them wins, and if the three colours differ the colour of the first alive
neighbour in scan order wins; the result is always one of the neighbours' colours, so
the default white appears only if a neighbour is white. -/
theorem majority_birth_color (grid : Grid) (cols rows i j : Nat)
    (hi : i < cols) (hj : j < rows) (hf : FlagsOk grid cols rows)
    (hdead : (grid i j).alive = 0) (hn : neighbourSum grid cols rows i j = 3) :
    (neighbourColors grid cols rows i j).length = 3
    ∧ (step grid cols rows false i j).alive = 1
    ∧ (∀ c, (neighbourColors grid cols rows i j).count c
          ≤ (neighbourColors grid cols rows i j).count (step grid cols rows false i j).color)
    ∧ (∀ A, 2 ≤ (neighbourColors grid cols rows i j).count A →
          (step grid cols rows false i j).color = A)
    ∧ ((neighbourColors grid cols rows i j).Nodup →
          (neighbourColors grid cols rows i j).head? = some (step grid cols rows false i j).color)
    ∧ (step grid cols rows false i j).color ∈ neighbourColors grid cols rows i j
    ∧ ((step grid cols rows false i j).color = white →
          white ∈ neighbourColors grid cols rows i j) := by
  obtain ⟨c1, c2, c3, hcs, hstep⟩ := majority_birth_formula grid cols rows i j hi hj hf hdead hn
  rw [hcs, hstep]
  simp only []
  have hmem : (if c1 = c2 ∨ c1 = c3 then c1 else if c2 = c3 then c2 else c1) ∈ [c1, c2, c3] := by
    split_ifs <;> simp
  refine ⟨rfl, trivial, ?_, ?_, ?_, hmem, ?_⟩
  · intro c
    by_cases h12 : c1 = c2 <;> by_cases h13 : c1 = c3 <;> by_cases h23 : c2 = c3 <;>
      by_cases e1 : c = c1 <;> by_cases e2 : c = c2 <;> by_cases e3 : c = c3 <;>
      simp_all [List.count_cons]
  · intro A hA
    by_cases h12 : c1 = c2 <;> by_cases h13 : c1 = c3 <;> by_cases h23 : c2 = c3 <;>
      by_cases e1 : A = c1 <;> by_cases e2 : A = c2 <;> by_cases e3 : A = c3 <;>
      simp_all [List.count_cons]
  · intro hnd
    have h12 : c1 ≠ c2 := by intro h; simp [h] at hnd
    have h13 : c1 ≠ c3 := by intro h; simp [h] at hnd
    have h23 : c2 ≠ c3 := by intro h; simp [h] at hnd
    simp [h12, h13, h23]
  · intro hw
    rw [← hw]
    exact hmem

/-! ## The controller: ticks and edits -/

theorem draw_history (s : State) :
    (draw s).history = historyPush s.history (aliveRatio s.grid s.cols s.rows) := by
  unfold draw
  simp only []
  split_ifs <;> rfl

theorem draw_cols (s : State) : (draw s).cols = s.cols := by
  unfold draw
  simp only []
  split_ifs <;> rfl

theorem draw_rows (s : State) : (draw s).rows = s.rows := by
  unfold draw
  simp only []
  split_ifs <;> rfl

theorem draw_colorMixing (s : State) : (draw s).colorMixing = s.colorMixing := by
  unfold draw
  simp only []
  split_ifs <;> rfl

theorem draw_grid (s : State) :
    (draw s).grid = if s.running then step s.grid s.cols s.rows s.colorMixing else s.grid := by
  unfold draw
  simp only []
  split_ifs <;> rfl

theorem draw_idle (s : State) (h : s.running = false) :
    draw s = { s with history := historyPush s.history (aliveRatio s.grid s.cols s.rows) } := by
  unfold draw
  simp [h]

theorem step_cellOk (grid : Grid) (cols rows : Nat) (colorMixing : Bool) (a b : Nat) :
    CellOk (step grid cols rows colorMixing a b) := by
  show CellOk (stepCell grid cols rows colorMixing a b)
  unfold stepCell deadCell CellOk
  simp only []
  split_ifs <;> simp

theorem applyTool_at (s : State) (a b : Nat) :
    applyTool s a b a b = match s.tool with
      | Tool.pen => ⟨1, s.penColor⟩
      | Tool.eraser => deadCell := by
  unfold applyTool setCell
  cases s.tool <;> simp

theorem applyTool_other (s : State) (a b x y : Nat) (h : ¬ (x = a ∧ y = b)) :
    applyTool s a b x y = s.grid x y := by
  unfold applyTool setCell
  cases s.tool <;> simp [h]

theorem edit_running (s : State) (i j : Int) : (edit s i j).running = s.running := by
  unfold edit
  split_ifs <;> rfl

theorem edit_grid (s : State) (i j : Int) :
    (edit s i j).grid = if InRange s i j then applyTool s i.toNat j.toNat else s.grid := by
  unfold edit InRange
  split_ifs <;> rfl

theorem mousePressed_grid (s : State) (i j : Int) :
    (mousePressed s i j).grid
      = if s.running = false ∧ InRange s i j then applyTool s i.toNat j.toNat else s.grid := by
  unfold mousePressed
  by_cases hr : s.running = true
  · simp [hr]
  · have hr2 : s.running = false := by simpa using hr
    rw [if_pos hr, edit_grid]
    simp [hr2]

theorem mouseDragged_grid (s : State) (i j : Int) :
    (mouseDragged s i j).grid = (mousePressed s i j).grid := by
  unfold mouseDragged mousePressed
  by_cases hr : s.running = true
  · simp [hr]
  · have hr2 : (edit s i j).running = false := by rw [edit_running]; simpa using hr
    rw [if_pos hr, if_pos hr, draw_grid, hr2]
    simp

theorem mousePressed_running (s : State) (i j : Int) :
    (mousePressed s i j).running = s.running := by
  unfold mousePressed
  split_ifs
  · rfl
  · exact edit_running s i j

theorem mouseDragged_running (s : State) (i j : Int) :
    (mouseDragged s i j).running = s.running := by
  unfold mouseDragged
  by_cases hr : s.running = true
  · simp [hr]
  · have hr2 : (edit s i j).running = false := by rw [edit_running]; simpa using hr
    rw [if_pos hr, draw_idle _ hr2]
    exact edit_running s i j

theorem clear_grid (s : State) :
    (clear s).grid = fun a b => if a < s.cols ∧ b < s.rows then deadCell else s.grid a b := by
  unfold clear
  rw [draw_grid]
  simp

theorem clear_grid_inside (s : State) (a b : Nat) (ha : a < s.cols) (hb : b < s.rows) :
    (clear s).grid a b = deadCell := by
  rw [clear_grid]
  simp [ha, hb]

theorem deadCell_ok : CellOk deadCell := by
  unfold CellOk deadCell
  simp

theorem applyTool_cellOk (s : State) (a b : Nat) : CellOk (applyTool s a b a b) := by
  rw [applyTool_at]
  cases s.tool
  · simp [CellOk]
  · exact deadCell_ok

theorem applyTool_wellFormed (s : State) (a b : Nat) (h : WellFormed s.grid s.cols s.rows) :
    WellFormed (applyTool s a b) s.cols s.rows := by
  intro x hx y hy
  by_cases hxy : x = a ∧ y = b
  · rw [hxy.1, hxy.2]
    exact applyTool_cellOk s a b
  · rw [applyTool_other s a b x y hxy]
    exact h x hx y hy

theorem mousePressed_wellFormed (s : State) (i j : Int) (h : WellFormed s.grid s.cols s.rows) :
    WellFormed (mousePressed s i j).grid s.cols s.rows := by
  rw [mousePressed_grid]
  split_ifs
  · exact applyTool_wellFormed s _ _ h
  · exact h

/-- Claim C5: for every input grid the cells written by a step (under either colour
policy), by a pen or eraser edit (`mousePressed`, `mouseDragged`) and by Clear have an
alive flag that is exactly 0 or 1 and are black when dead; hence a grid that satisfies
"flag in `{0, 1}` and dead implies black" before a step, a tick, an edit or Clear
satisfies it afterwards. -/
theorem wellformed_kept (s : State) (i j : Int) :
    (∀ (colorMixing : Bool) (a b : Nat), CellOk (step s.grid s.cols s.rows colorMixing a b))
    ∧ (s.running = false → InRange s i j →
        CellOk ((mousePressed s i j).grid i.toNat j.toNat)
        ∧ CellOk ((mouseDragged s i j).grid i.toNat j.toNat))
    ∧ (∀ a < s.cols, ∀ b < s.rows, (clear s).grid a b = ⟨0, ⟨0, 0, 0⟩⟩)
    ∧ WellFormed (clear s).grid s.cols s.rows
    ∧ (WellFormed s.grid s.cols s.rows →
        (∀ colorMixing : Bool, WellFormed (step s.grid s.cols s.rows colorMixing) s.cols s.rows)
        ∧ WellFormed (draw s).grid s.cols s.rows
        ∧ WellFormed (mousePressed s i j).grid s.cols s.rows
        ∧ WellFormed (mouseDragged s i j).grid s.cols s.rows
        ∧ WellFormed (clear s).grid s.cols s.rows) := by
  have hclear : WellFormed (clear s).grid s.cols s.rows := by
    intro a ha b hb
    rw [clear_grid_inside s a b ha hb]
    exact deadCell_ok
  refine ⟨fun m a b => step_cellOk s.grid s.cols s.rows m a b, ?_,
    fun a ha b hb => clear_grid_inside s a b ha hb, hclear, ?_⟩
  · intro hr hin
    rw [mouseDragged_grid, mousePressed_grid, if_pos ⟨hr, hin⟩]
    exact ⟨applyTool_cellOk s _ _, applyTool_cellOk s _ _⟩
  · intro h
    refine ⟨fun m a _ b _ => step_cellOk s.grid s.cols s.rows m a b, ?_,
      mousePressed_wellFormed s i j h, ?_, hclear⟩
    · rw [draw_grid]
      split_ifs
      · exact fun a _ b _ => step_cellOk s.grid s.cols s.rows _ a b
      · exact h
    · rw [mouseDragged_grid]
      exact mousePressed_wellFormed s i j h

/-- Claim C7: a manual edit (`mousePressed` or `mouseDragged` at the computed cell
`(i, j)`) leaves the grid unchanged while Running or when `(i, j)` is outside
`[0, cols) x [0, rows)`; while Idle and in range it makes the cell `(i, j)` alive with the
pen colour (tool pen) or dead and black (tool eraser) and leaves every other cell
unchanged; the running flag is unchanged in all cases. -/
theorem edit_gating_and_frame (s : State) (i j : Int) :
    (s.running = true →
        (mousePressed s i j).grid = s.grid ∧ (mouseDragged s i j).grid = s.grid)
    ∧ (¬ InRange s i j →
        (mousePressed s i j).grid = s.grid ∧ (mouseDragged s i j).grid = s.grid)
    ∧ (s.running = false → InRange s i j →
        (s.tool = Tool.pen →
          (mousePressed s i j).grid i.toNat j.toNat = ⟨1, s.penColor⟩
          ∧ (mouseDragged s i j).grid i.toNat j.toNat = ⟨1, s.penColor⟩)
        ∧ (s.tool = Tool.eraser →
          (mousePressed s i j).grid i.toNat j.toNat = ⟨0, ⟨0, 0, 0⟩⟩
          ∧ (mouseDragged s i j).grid i.toNat j.toNat = ⟨0, ⟨0, 0, 0⟩⟩)
        ∧ (∀ a b : Nat, ¬ (a = i.toNat ∧ b = j.toNat) →
          (mousePressed s i j).grid a b = s.grid a b
          ∧ (mouseDragged s i j).grid a b = s.grid a b))
    ∧ (mousePressed s i j).running = s.running
    ∧ (mouseDragged s i j).running = s.running := by
  refine ⟨?_, ?_, ?_, mousePressed_running s i j, mouseDragged_running s i j⟩
  · intro hr
    rw [mouseDragged_grid, mousePressed_grid]
    simp [hr]
  · intro hin
    rw [mouseDragged_grid, mousePressed_grid]
    simp [hin]
  · intro hr hin
    rw [mouseDragged_grid, mousePressed_grid, if_pos ⟨hr, hin⟩]
    refine ⟨?_, ?_, ?_⟩
    · intro ht
      rw [applyTool_at, ht]
      exact ⟨rfl, rfl⟩
    · intro ht
      rw [applyTool_at, ht]
      exact ⟨rfl, rfl⟩
    · intro a b hab
      rw [applyTool_other s _ _ a b hab]
      exact ⟨rfl, rfl⟩

/-! ## The winner check -/

theorem mem_setAdd (s : List Key) (key k : Key) : k ∈ setAdd s key ↔ k ∈ s ∨ k = key := by
  unfold setAdd
  split_ifs with h
  · constructor
    · exact Or.inl
    · rintro (h1 | h1)
      · exact h1
      · exact h1 ▸ h
  · simp

theorem setAdd_nodup (s : List Key) (key : Key) (h : s.Nodup) : (setAdd s key).Nodup := by
  unfold setAdd
  split_ifs with hm
  · exact h
  · rw [List.nodup_append]
    refine ⟨h, List.nodup_singleton key, ?_⟩
    intro a ha hb
    rw [List.mem_singleton] at hb
    exact hm (hb ▸ ha)

theorem foldl_setAdd_spec {ι : Type} (P : ι → Prop) [DecidablePred P] (key : ι → Key)
    (l : List ι) :
    ∀ acc : List Key, acc.Nodup →
      (l.foldl (fun acc x => if P x then setAdd acc (key x) else acc) acc).Nodup
      ∧ ∀ k, k ∈ l.foldl (fun acc x => if P x then setAdd acc (key x) else acc) acc
          ↔ k ∈ acc ∨ ∃ x ∈ l, P x ∧ key x = k := by
  induction l with
  | nil => intro acc h; simp [h]
  | cons x l ih =>
    intro acc h
    rw [List.foldl_cons]
    by_cases hx : P x
    · rw [if_pos hx]
      obtain ⟨h1, h2⟩ := ih (setAdd acc (key x)) (setAdd_nodup acc (key x) h)
      refine ⟨h1, fun k => ?_⟩
      rw [h2 k, mem_setAdd]
      constructor
      · rintro ((hk | hk) | ⟨y, hy, hPy, hky⟩)
        · exact Or.inl hk
        · exact Or.inr ⟨x, List.mem_cons_self x l, hx, hk.symm⟩
        · exact Or.inr ⟨y, List.mem_cons_of_mem x hy, hPy, hky⟩
      · rintro (hk | ⟨y, hy, hPy, hky⟩)
        · exact Or.inl (Or.inl hk)
        · rw [List.mem_cons] at hy
          rcases hy with hy | hy
          · exact Or.inl (Or.inr (by rw [← hky, hy]))
          · exact Or.inr ⟨y, hy, hPy, hky⟩
    · rw [if_neg hx]
      obtain ⟨h1, h2⟩ := ih acc h
      refine ⟨h1, fun k => ?_⟩
      rw [h2 k]
      constructor
      · rintro (hk | ⟨y, hy, hPy, hky⟩)
        · exact Or.inl hk
        · exact Or.inr ⟨y, List.mem_cons_of_mem x hy, hPy, hky⟩
      · rintro (hk | ⟨y, hy, hPy, hky⟩)
        · exact Or.inl hk
        · rw [List.mem_cons] at hy
          rcases hy with hy | hy
          · exact absurd (hy ▸ hPy) hx
          · exact Or.inr ⟨y, hy, hPy, hky⟩

theorem colorSet_aux (grid : Grid) (rows : Nat) (l : List Nat) :
    ∀ acc : List Key, acc.Nodup →
      (l.foldl (fun acc i => (List.range rows).foldl
        (fun acc j =>
          if (grid i j).alive ≠ 0 then setAdd acc (joinComma (grid i j).color) else acc)
        acc) acc).Nodup
      ∧ ∀ k, k ∈ l.foldl (fun acc i => (List.range rows).foldl
          (fun acc j =>
            if (grid i j).alive ≠ 0 then setAdd acc (joinComma (grid i j).color) else acc)
          acc) acc
          ↔ k ∈ acc ∨ ∃ i ∈ l, ∃ j < rows,
              (grid i j).alive ≠ 0 ∧ joinComma (grid i j).color = k := by
  induction l with
  | nil => intro acc h; simp [h]
  | cons i l ih =>
    intro acc h
    rw [List.foldl_cons]
    obtain ⟨g1, g2⟩ := foldl_setAdd_spec (fun j => (grid i j).alive ≠ 0)
      (fun j => joinComma (grid i j).color) (List.range rows) acc h
    obtain ⟨h1, h2⟩ := ih _ g1
    refine ⟨h1, fun k => ?_⟩
    rw [h2 k, g2 k]
    constructor
    · rintro ((hk | ⟨j, hj, hP, hk⟩) | ⟨a, ha, j, hj, hP, hk⟩)
      · exact Or.inl hk
      · exact Or.inr ⟨i, List.mem_cons_self i l, j, List.mem_range.mp hj, hP, hk⟩
      · exact Or.inr ⟨a, List.mem_cons_of_mem i ha, j, hj, hP, hk⟩
    · rintro (hk | ⟨a, ha, j, hj, hP, hk⟩)
      · exact Or.inl (Or.inl hk)
      · rw [List.mem_cons] at ha
        rcases ha with ha | ha
        · subst ha
          exact Or.inl (Or.inr ⟨j, List.mem_range.mpr hj, hP, hk⟩)
        · exact Or.inr ⟨a, ha, j, hj, hP, hk⟩

theorem colorSet_nodup (grid : Grid) (cols rows : Nat) : (colorSet grid cols rows).Nodup :=
  (colorSet_aux grid rows (List.range cols) [] List.nodup_nil).1

theorem mem_colorSet (grid : Grid) (cols rows : Nat) (k : Key) :
    k ∈ colorSet grid cols rows
      ↔ ∃ a < cols, ∃ b < rows, (grid a b).alive ≠ 0 ∧ joinComma (grid a b).color = k := by
  unfold colorSet
  rw [(colorSet_aux grid rows (List.range cols) [] List.nodup_nil).2 k]
  constructor
  · rintro (h | ⟨a, ha, b, hb, h⟩)
    · exact absurd h (List.not_mem_nil k)
    · exact ⟨a, List.mem_range.mp ha, b, hb, h⟩
  · rintro ⟨a, ha, b, hb, h⟩
    exact Or.inr ⟨a, List.mem_range.mpr ha, b, hb, h⟩

theorem colorSet_of_oneColour (grid : Grid) (cols rows : Nat) (c : Color)
    (h : OneColour grid cols rows c) : colorSet grid cols rows = [joinComma c] := by
  obtain ⟨⟨a, ha, b, hb, hal, hcol⟩, hall⟩ := h
  have hmem : joinComma c ∈ colorSet grid cols rows :=
    (mem_colorSet grid cols rows _).mpr ⟨a, ha, b, hb, hal, by rw [hcol]⟩
  have hall2 : ∀ k ∈ colorSet grid cols rows, k = joinComma c := by
    intro k hk
    obtain ⟨x, hx, y, hy, hxy, hkey⟩ := (mem_colorSet grid cols rows k).mp hk
    rw [← hkey, hall x hx y hy hxy]
  have hnd := colorSet_nodup grid cols rows
  cases hs : colorSet grid cols rows with
  | nil => rw [hs] at hmem; exact absurd hmem (List.not_mem_nil _)
  | cons k rest =>
    rw [hs] at hall2 hnd
    have hk := hall2 k (List.mem_cons_self k rest)
    cases rest with
    | nil => rw [hk]
    | cons k2 rest2 =>
      have hk2 := hall2 k2 (List.mem_cons_of_mem k (List.mem_cons_self k2 rest2))
      rw [List.nodup_cons] at hnd
      exact absurd (by rw [hk, hk2]; exact List.mem_cons_self _ _) hnd.1

theorem oneColour_of_length (grid : Grid) (cols rows : Nat)
    (h : (colorSet grid cols rows).length = 1) :
    ∃ c, OneColour grid cols rows c := by
  obtain ⟨k, hk⟩ := List.length_eq_one.mp h
  have hmem : k ∈ colorSet grid cols rows := by rw [hk]; exact List.mem_singleton_self k
  obtain ⟨a, ha, b, hb, hal, hkey⟩ := (mem_colorSet grid cols rows k).mp hmem
  refine ⟨(grid a b).color, ⟨a, ha, b, hb, hal, rfl⟩, ?_⟩
  intro x hx y hy hxy
  have hm2 : joinComma (grid x y).color ∈ colorSet grid cols rows :=
    (mem_colorSet grid cols rows _).mpr ⟨x, hx, y, hy, hxy, rfl⟩
  rw [hk, List.mem_singleton, ← hkey] at hm2
  exact joinComma_injective _ _ hm2

theorem colorSet_length_one_iff (grid : Grid) (cols rows : Nat) :
    (colorSet grid cols rows).length = 1 ↔ ∃ c, OneColour grid cols rows c := by
  constructor
  · exact oneColour_of_length grid cols rows
  · rintro ⟨c, hc⟩
    rw [colorSet_of_oneColour grid cols rows c hc]
    rfl

theorem oneColour_unique (grid : Grid) (cols rows : Nat) (c d : Color)
    (hc : OneColour grid cols rows c) (hd : OneColour grid cols rows d) : c = d := by
  obtain ⟨⟨a, ha, b, hb, hal, hcol⟩, _⟩ := hc
  rw [← hcol]
  exact hd.2 a ha b hb hal

theorem draw_running_winner (s : State) (hr : s.running = true) (c : Color)
    (h : OneColour (step s.grid s.cols s.rows s.colorMixing) s.cols s.rows c) :
    (draw s).running = false ∧ (draw s).winnerColor = some c
      ∧ (draw s).grid = step s.grid s.cols s.rows s.colorMixing := by
  have hset := colorSet_of_oneColour _ _ _ c h
  unfold draw
  simp [hr, hset, keyToColor_joinComma]

theorem draw_running_nowinner (s : State) (hr : s.running = true)
    (h : ¬ ∃ c, OneColour (step s.grid s.cols s.rows s.colorMixing) s.cols s.rows c) :
    (draw s).running = true ∧ (draw s).winnerColor = s.winnerColor := by
  rw [← colorSet_length_one_iff] at h
  unfold draw
  simp [hr, h]

theorem historyPush_getLast {α : Type} (h : List α) (x : α) :
    (historyPush h x).getLast? = some x := by
  unfold historyPush
  simp only []
  split_ifs with hlen
  · cases h with
    | nil => simp [HISTORY_LENGTH] at hlen
    | cons a t => simp
  · simp

theorem historyPush_short {α : Type} (h : List α) (x : α) (hlen : h.length < HISTORY_LENGTH) :
    historyPush h x = h ++ [x] := by
  unfold historyPush
  simp only []
  rw [if_neg]
  rw [List.length_append, List.length_singleton]
  omega

/-! ### The alive count is the number of alive cells -/

theorem aliveCount_inner (P : Nat → Prop) [DecidablePred P] (rows : Nat) :
    ∀ acc : Nat,
      (List.range rows).foldl (fun acc j => if P j then acc + 1 else acc) acc
        = acc + ∑ j ∈ Finset.range rows, if P j then 1 else 0 := by
  induction rows with
  | zero => intro acc; simp
  | succ n ih =>
    intro acc
    rw [List.range_succ, List.foldl_append, ih, Finset.sum_range_succ, List.foldl_cons,
      List.foldl_nil]
    split_ifs <;> omega

theorem aliveCount_outer (grid : Grid) (rows cols : Nat) :
    ∀ acc : Nat,
      (List.range cols).foldl
        (fun acc i => (List.range rows).foldl
          (fun acc j => if (grid i j).alive ≠ 0 then acc + 1 else acc) acc) acc
        = acc + ∑ i ∈ Finset.range cols, ∑ j ∈ Finset.range rows,
            if (grid i j).alive ≠ 0 then 1 else 0 := by
  induction cols with
  | zero => intro acc; simp
  | succ n ih =>
    intro acc
    rw [List.range_succ, List.foldl_append, ih, Finset.sum_range_succ, List.foldl_cons,
      List.foldl_nil, aliveCount_inner (fun j => (grid n j).alive ≠ 0)]
    omega

/-- The counter computed by the two loops of `draw` is the number of alive cells
inside the grid. -/
theorem aliveCount_eq_card (grid : Grid) (cols rows : Nat) :
    aliveCount grid cols rows = (aliveCells grid cols rows).card := by
  unfold aliveCount aliveCells
  rw [aliveCount_outer, Finset.card_filter, Finset.sum_product, Nat.zero_add]

theorem aliveRatio_eq (grid : Grid) (cols rows : Nat) :
    aliveRatio grid cols rows
      = ((aliveCells grid cols rows).card : ℚ) / ((cols : ℚ) * (rows : ℚ)) := by
  unfold aliveRatio
  rw [aliveCount_eq_card, Nat.cast_mul]

theorem draw_iterate_idle (s : State) (h : s.running = false) (n : Nat) :
    (draw^[n] s).grid = s.grid ∧ (draw^[n] s).running = false
      ∧ (draw^[n] s).winnerColor = s.winnerColor := by
  induction n with
  | zero => exact ⟨rfl, h, rfl⟩
  | succ n ih =>
    rw [Function.iterate_succ_apply', draw_idle _ ih.2.1]
    exact ih

/-- Claim C4 (counterexample): at the idle 1x1 state whose only cell is alive with
colour `(10, 20, 30)`, the grid
inspected by the winner check carries exactly one colour, yet `draw` reports no winner:
`winnerColor` stays `null`. -/
theorem winner_check_idle_counterexample :
    OneColour (draw singleIdle).grid singleIdle.cols singleIdle.rows ⟨10, 20, 30⟩
    ∧ (draw singleIdle).winnerColor = none := by
  rw [draw_idle singleIdle rfl]
  refine ⟨⟨⟨0, by decide, 0, by decide, by decide, rfl⟩, ?_⟩, rfl⟩
  intro a _ b _ _
  rfl

/-- Claim C4 (amended): on a tick taken while Running, the winner check reports a winner
(stops the simulation) if and only if the alive cells of the grid it inspects carry
exactly one distinct colour, and `winnerColor` is then that colour; a grid with no alive
cell, or with two alive cells of different colours, reports no winner; a grid whose only
alive cell has colour `(10, 20, 30)` reports `(10, 20, 30)`. On a tick taken while Idle
the check reports nothing. -/
theorem winner_check_while_running (s : State) :
    (s.running = true →
      ((draw s).running = false ↔ ∃ c, OneColour (draw s).grid s.cols s.rows c)
      ∧ (∀ c, OneColour (draw s).grid s.cols s.rows c → (draw s).winnerColor = some c)
      ∧ ((∀ a < s.cols, ∀ b < s.rows, ((draw s).grid a b).alive = 0) →
          (draw s).running = true ∧ (draw s).winnerColor = s.winnerColor)
      ∧ ((∃ a < s.cols, ∃ b < s.rows, ∃ x < s.cols, ∃ y < s.rows,
            ((draw s).grid a b).alive ≠ 0 ∧ ((draw s).grid x y).alive ≠ 0
            ∧ ((draw s).grid a b).color ≠ ((draw s).grid x y).color) →
          (draw s).running = true ∧ (draw s).winnerColor = s.winnerColor)
      ∧ ((∃ a < s.cols, ∃ b < s.rows,
            ((draw s).grid a b).alive ≠ 0 ∧ ((draw s).grid a b).color = ⟨10, 20, 30⟩
            ∧ ∀ x < s.cols, ∀ y < s.rows, ((draw s).grid x y).alive ≠ 0 → x = a ∧ y = b) →
          (draw s).running = false ∧ (draw s).winnerColor = some ⟨10, 20, 30⟩))
    ∧ (s.running = false →
        (draw s).running = false ∧ (draw s).winnerColor = s.winnerColor) := by
  constructor
  · intro hr
    have hg : (draw s).grid = step s.grid s.cols s.rows s.colorMixing := by
      rw [draw_grid, if_pos hr]
    rw [hg]
    have hwin := draw_running_winner s hr
    have hno := draw_running_nowinner s hr
    refine ⟨?_, fun c hc => (hwin c hc).2.1, ?_, ?_, ?_⟩
    · constructor
      · intro hf
        by_contra hne
        rw [(hno hne).1] at hf
        exact absurd hf (by decide)
      · rintro ⟨c, hc⟩
        exact (hwin c hc).1
    · intro hdead
      apply hno
      rintro ⟨c, ⟨a, ha, b, hb, hal, _⟩, _⟩
      exact hal (hdead a ha b hb)
    · rintro ⟨a, ha, b, hb, x, hx, y, hy, hab, hxy, hne⟩
      apply hno
      rintro ⟨c, _, hall⟩
      exact hne ((hall a ha b hb hab).trans (hall x hx y hy hxy).symm)
    · rintro ⟨a, ha, b, hb, hal, hcol, honly⟩
      have hone : OneColour (step s.grid s.cols s.rows s.colorMixing) s.cols s.rows
          ⟨10, 20, 30⟩ := by
        refine ⟨⟨a, ha, b, hb, hal, hcol⟩, ?_⟩
        intro x hx y hy hxy
        obtain ⟨rfl, rfl⟩ := honly x hx y hy hxy
        exact hcol
      exact ⟨(hwin _ hone).1, (hwin _ hone).2.1⟩
  · intro hr
    rw [draw_idle s hr]
    exact ⟨hr, rfl⟩

/-! ## Monochrome grids -/

theorem monochrome_stepCell (grid : Grid) (cols rows : Nat) (colorMixing : Bool) (c : Color)
    (hf : FlagsOk grid cols rows) (hb : ChannelsOk c)
    (hmono : ∀ a < cols, ∀ b < rows, (grid a b).alive ≠ 0 → (grid a b).color = c)
    (i j : Nat) (hi : i < cols) (hj : j < rows)
    (halive : (step grid cols rows colorMixing i j).alive ≠ 0) :
    (step grid cols rows colorMixing i j).color = c := by
  have hc : 0 < cols := by omega
  have hr : 0 < rows := by omega
  change (stepCell grid cols rows colorMixing i j).alive ≠ 0 at halive
  show (stepCell grid cols rows colorMixing i j).color = c
  rw [stepCell_eq grid cols rows colorMixing i j hi hj hf] at halive ⊢
  split_ifs at halive ⊢ with h1 h2 h3
  · exact absurd rfl halive
  · obtain ⟨hdead, hn⟩ := h2
    obtain ⟨n1, n2, n3, h3⟩ := aliveNeighbours_three grid cols rows i j hc hr hf hn
    have hcol : ∀ n ∈ aliveNeighbours grid cols rows i j, n.color = c := by
      intro n hnm
      obtain ⟨hal, a, ha, b, hb, rfl⟩ := aliveNeighbours_mem grid cols rows i j hc hr n hnm
      exact hmono a ha b hb hal
    have hch : ∀ n ∈ aliveNeighbours grid cols rows i j, ChannelsOk n.color := by
      intro n hnm
      rw [hcol n hnm]
      exact hb
    have hsum : ∀ ch : Color → Int,
        channelSum ch grid cols rows i j = ch c + (ch c + ch c) := by
      intro ch
      unfold channelSum
      rw [h3] at hcol ⊢
      simp only [List.map_cons, List.map_nil, List.sum_cons, List.sum_nil,
        hcol n1 (by simp), hcol n2 (by simp), hcol n3 (by simp)]
      omega
    obtain ⟨⟨r0, r1⟩, ⟨g0, g1⟩, ⟨b0, b1⟩⟩ := hb
    show birthColor colorMixing (scan grid cols rows i j) = c
    cases colorMixing
    · unfold birthColor
      rw [scan_colorMap_dead grid cols rows i j hi hj hdead, h3]
      rw [h3] at hcol
      simp only [foldl_colorMap_map, List.map_cons, List.map_nil, Bool.false_eq_true, if_false]
      rw [majority_three, hcol n1 (by simp), hcol n2 (by simp), hcol n3 (by simp)]
      simp
    · unfold birthColor
      rw [scan_colorCount_dead grid cols rows i j hi hj hdead,
        scan_colorSum_dead grid cols rows i j hi hj hdead hch, h3, hsum, hsum, hsum]
      simp only [List.length_cons, List.length_nil, if_true]
      rw [show ((0 + 1 + 1 + 1 : Nat) : Int) = 3 from rfl,
        mathRoundDiv_three _ (by omega) (by omega), mathRoundDiv_three _ (by omega) (by omega),
        mathRoundDiv_three _ (by omega) (by omega), roundDiv_three_mul, roundDiv_three_mul,
        roundDiv_three_mul]
      simp
  · exact hmono i hi j hj h3
  · exact absurd rfl halive

theorem monochrome_iterate (grid : Grid) (cols rows : Nat) (colorMixing : Bool) (c : Color)
    (hf : FlagsOk grid cols rows) (hb : ChannelsOk c)
    (hmono : ∀ a < cols, ∀ b < rows, (grid a b).alive ≠ 0 → (grid a b).color = c) (n : Nat) :
    FlagsOk ((fun g => step g cols rows colorMixing)^[n] grid) cols rows
    ∧ ∀ a < cols, ∀ b < rows,
        (((fun g => step g cols rows colorMixing)^[n] grid) a b).alive ≠ 0 →
        (((fun g => step g cols rows colorMixing)^[n] grid) a b).color = c := by
  induction n with
  | zero => exact ⟨hf, hmono⟩
  | succ n ih =>
    rw [Function.iterate_succ_apply']
    exact ⟨step_flagsOk _ cols rows colorMixing,
      fun a ha b hb2 hal =>
        monochrome_stepCell _ cols rows colorMixing c ih.1 hb ih.2 a b ha hb2 hal⟩

set_option maxRecDepth 100000 in
/-- Claim C10 (counterexample): on the 5x5 blinker grid whose alive cells all carry the
colour with every channel `2^53 - 2`, the flags are 0 or 1 and the grid is monochrome, yet
the cell `(2, 1)` born by a colour-mixing step carries channels `2^53 - 3`: the double sum
of the three neighbours is rounded, and so is its third. -/
theorem monochrome_big_counterexample :
    FlagsOk bigBlinkerGrid 5 5
    ∧ (∀ a < 5, ∀ b < 5, (bigBlinkerGrid a b).alive ≠ 0 →
        (bigBlinkerGrid a b).color = ⟨9007199254740990, 9007199254740990, 9007199254740990⟩)
    ∧ (step bigBlinkerGrid 5 5 true 2 1).alive ≠ 0
    ∧ (step bigBlinkerGrid 5 5 true 2 1).color
        = ⟨9007199254740989, 9007199254740989, 9007199254740989⟩
    ∧ (step bigBlinkerGrid 5 5 true 2 1).color
        ≠ ⟨9007199254740990, 9007199254740990, 9007199254740990⟩ := by
  unfold FlagsOk
  decide

/-- Claim C10 (amended): monochrome grids whose colour has channels in `[0, 255]` are
closed under the step in both colour policies: if the alive flags are 0 or 1 and every
alive cell carries the colour `c` with channels in `[0, 255]`, then every alive cell of
the stepped grid carries `c` (survivors copy it, a mixing birth averages three copies of
it, a majority birth picks it), and so does every alive cell after any number of further
steps: no later step introduces a second colour. -/
theorem monochrome_closed (grid : Grid) (cols rows : Nat) (c : Color)
    (hf : FlagsOk grid cols rows) (hb : ChannelsOk c)
    (hmono : ∀ a < cols, ∀ b < rows, (grid a b).alive ≠ 0 → (grid a b).color = c) :
    (∀ (colorMixing : Bool), ∀ i < cols, ∀ j < rows,
      (step grid cols rows colorMixing i j).alive ≠ 0 →
      (step grid cols rows colorMixing i j).color = c)
    ∧ (∀ (colorMixing : Bool) (n : Nat), ∀ i < cols, ∀ j < rows,
      (((fun g => step g cols rows colorMixing)^[n] grid) i j).alive ≠ 0 →
      (((fun g => step g cols rows colorMixing)^[n] grid) i j).color = c) :=
  ⟨fun m i hi j hj hal => monochrome_stepCell grid cols rows m c hf hb hmono i j hi hj hal,
   fun m n => (monochrome_iterate grid cols rows m c hf hb hmono n).2⟩

/-! ## Ticks of the controller -/

set_option maxRecDepth 100000 in
/-- Claim C8 (counterexample): at the running 1x1 state whose only cell is alive, the
tick appends the ratio 1 of the
grid it started from, while the grid it installs has ratio 0: the appended sample is not
the alive ratio of the new grid. -/
theorem sample_is_not_new_ratio_counterexample :
    (draw singleRunning).history
      ≠ historyPush singleRunning.history
          (aliveRatio (draw singleRunning).grid singleRunning.cols singleRunning.rows) := by
  have h1 : aliveCount singleGrid 1 1 = 1 := by decide
  have h2 : aliveCount (step singleGrid 1 1 true) 1 1 = 0 := by decide
  have e1 : singleRunning.history = [] := rfl
  have e2 : singleRunning.grid = singleGrid := rfl
  have e3 : singleRunning.cols = 1 := rfl
  have e4 : singleRunning.rows = 1 := rfl
  have e5 : singleRunning.colorMixing = true := rfl
  have e6 : singleRunning.running = true := rfl
  rw [draw_history, draw_grid, e1, e2, e3, e4, e5, e6, if_pos rfl]
  unfold aliveRatio
  rw [h1, h2]
  simp [historyPush, HISTORY_LENGTH]

/-- Claim C8 (amended): on every tick, Running or Idle, the sample appended to the
history is the alive ratio `aliveCount / (cols * rows)` of the grid as it is when the
tick starts, before the step block replaces it; while Running the grid installed by the
same tick is the step of that grid. -/
theorem sample_is_ratio_before_step (s : State) :
    (draw s).history = historyPush s.history (aliveRatio s.grid s.cols s.rows)
    ∧ (draw s).history.getLast? = some (aliveRatio s.grid s.cols s.rows)
    ∧ (draw s).grid = if s.running then step s.grid s.cols s.rows s.colorMixing else s.grid := by
  refine ⟨draw_history s, ?_, draw_grid s⟩
  rw [draw_history]
  exact historyPush_getLast _ _

/-- Claim C9: a tick taken while Idle leaves grid, running flag and winner colour
unchanged and appends exactly one sample, the alive ratio of the frozen grid (the number
of alive cells inside the grid divided by `cols * rows`), to the history (dropping the
oldest sample only when the buffer is full); a tick taken while
Running whose post-step grid has exactly one distinct alive colour `c` leaves
`running = false` and `winnerColor = c`, and from then on no number of further ticks
changes the grid, the running flag or the winner colour. -/
theorem tick_idle_and_winner (s : State) :
    (s.running = false →
      (draw s).grid = s.grid ∧ (draw s).running = s.running
      ∧ (draw s).winnerColor = s.winnerColor
      ∧ (draw s).history = historyPush s.history (aliveRatio s.grid s.cols s.rows)
      ∧ (draw s).history.getLast? = some (aliveRatio s.grid s.cols s.rows)
      ∧ (s.history.length < 1000 →
          (draw s).history = s.history ++ [aliveRatio s.grid s.cols s.rows])
      ∧ (draw s).history.getLast?
          = some (((aliveCells s.grid s.cols s.rows).card : ℚ) / ((s.cols : ℚ) * (s.rows : ℚ)))
      ∧ (s.history.length < 1000 →
          (draw s).history = s.history
            ++ [((aliveCells s.grid s.cols s.rows).card : ℚ) / ((s.cols : ℚ) * (s.rows : ℚ))]))
    ∧ (s.running = true →
        ∀ c, OneColour (step s.grid s.cols s.rows s.colorMixing) s.cols s.rows c →
          (draw s).grid = step s.grid s.cols s.rows s.colorMixing
          ∧ (draw s).running = false ∧ (draw s).winnerColor = some c
          ∧ ∀ n : Nat, (draw^[n] (draw s)).grid = (draw s).grid
              ∧ (draw^[n] (draw s)).running = false
              ∧ (draw^[n] (draw s)).winnerColor = some c) := by
  constructor
  · intro hr
    rw [draw_idle s hr]
    refine ⟨rfl, rfl, rfl, rfl, historyPush_getLast _ _,
      fun hlen => historyPush_short _ _ hlen, ?_, ?_⟩
    · rw [← aliveRatio_eq]
      exact historyPush_getLast _ _
    · intro hlen
      rw [← aliveRatio_eq]
      exact historyPush_short _ _ hlen
  · intro hr c hc
    obtain ⟨h1, h2, h3⟩ := draw_running_winner s hr c hc
    refine ⟨h3, h1, h2, fun n => ?_⟩
    have := draw_iterate_idle (draw s) h1 n
    rw [h2] at this
    exact this

/-! ## The theorems at concrete grids and states -/

theorem blinkerGrid_flagsOk : FlagsOk blinkerGrid 5 5 := by
  unfold FlagsOk
  decide

theorem blinkerGrid_isBlinkerH : isBlinkerH blinkerGrid 5 5 2 2 := by
  unfold isBlinkerH
  decide

theorem blinkerGrid_mono :
    ∀ a < 5, ∀ b < 5, (blinkerGrid a b).alive ≠ 0 → (blinkerGrid a b).color = ⟨255, 99, 132⟩ := by
  decide

theorem blinkerGrid_aliveCount :
    aliveCount idleState.grid idleState.cols idleState.rows = 3 := by decide

theorem blinkerGrid_wellFormed : WellFormed blinkerGrid 5 5 := by
  unfold WellFormed CellOk
  decide

theorem mixGrid_flagsOk : FlagsOk mixGrid 5 5 := by
  unfold FlagsOk
  decide

theorem mixGrid_colorsOk : ColorsOk mixGrid 5 5 := by
  unfold ColorsOk
  decide

theorem mixGrid_neighbourSum : neighbourSum mixGrid 5 5 1 1 = 3 := by decide

theorem mixGrid_colors :
    (aliveNeighbours mixGrid 5 5 1 1).map Cell.color
      = [⟨0, 0, 0⟩, ⟨255, 255, 255⟩, ⟨0, 255, 0⟩] := by decide

set_option maxRecDepth 100000 in
theorem blinkerGrid_born : (step blinkerGrid 5 5 true 2 1).alive ≠ 0 := by decide

set_option maxRecDepth 100000 in
theorem blinkerGrid_centre : (step blinkerGrid 5 5 true 2 2).alive ≠ 0 := by decide

theorem blinker_step_oneColour :
    OneColour (step runningState.grid runningState.cols runningState.rows
      runningState.colorMixing) runningState.cols runningState.rows ⟨255, 99, 132⟩ := by
  show OneColour (step blinkerGrid 5 5 true) 5 5 ⟨255, 99, 132⟩
  refine ⟨⟨2, by decide, 2, by decide, blinkerGrid_centre,
    monochrome_stepCell blinkerGrid 5 5 true _ blinkerGrid_flagsOk (by decide)
      blinkerGrid_mono 2 2 (by decide) (by decide) blinkerGrid_centre⟩, ?_⟩
  intro a ha b hb hal
  exact monochrome_stepCell blinkerGrid 5 5 true _ blinkerGrid_flagsOk (by decide)
    blinkerGrid_mono a b ha hb hal

theorem blinker_draw_oneColour :
    OneColour (draw runningState).grid runningState.cols runningState.rows ⟨255, 99, 132⟩ := by
  rw [draw_grid]
  exact blinker_step_oneColour

/-- The claim C1 statement at the 5x5 blinker grid: the cell `(2, 1)` above the centre is
born by the rule, and after two steps it is dead again as in the initial pattern. -/
theorem step_follows_conway_witness :
    FlagsOk blinkerGrid 5 5 ∧ isBlinkerH blinkerGrid 5 5 2 2
    ∧ ((step blinkerGrid 5 5 true 2 1).alive = 1 ↔
        ((blinkerGrid 2 1).alive = 1 ∧ (neighbourSum blinkerGrid 5 5 2 1 = 2
            ∨ neighbourSum blinkerGrid 5 5 2 1 = 3))
        ∨ ((blinkerGrid 2 1).alive = 0 ∧ neighbourSum blinkerGrid 5 5 2 1 = 3))
    ∧ (step (step blinkerGrid 5 5 true) 5 5 false 2 1).alive = (blinkerGrid 2 1).alive :=
  ⟨blinkerGrid_flagsOk, blinkerGrid_isBlinkerH,
    ((step_follows_conway blinkerGrid 5 5 true (by decide) (by decide)
      blinkerGrid_flagsOk).1 2 (by decide) 1 (by decide)).2,
    (step_follows_conway blinkerGrid 5 5 true (by decide) (by decide)
      blinkerGrid_flagsOk).2.2 (by decide) (by decide) 2 (by decide) 2 (by decide)
      (Or.inl blinkerGrid_isBlinkerH) false 2 (by decide) 1 (by decide)⟩

/-- The claim C2 statement at the cell `(1, 1)` of the mixing grid, whose alive neighbours
are black, white and green: the born colour is `(85, 170, 85)`. -/
theorem mixing_birth_is_rounded_mean_witness :
    FlagsOk mixGrid 5 5 ∧ ColorsOk mixGrid 5 5 ∧ (mixGrid 1 1).alive = 0
    ∧ neighbourSum mixGrid 5 5 1 1 = 3
    ∧ (scan mixGrid 5 5 1 1).colorCount = 3
    ∧ (step mixGrid 5 5 true 1 1).color = ⟨85, 170, 85⟩ :=
  ⟨mixGrid_flagsOk, mixGrid_colorsOk, rfl, mixGrid_neighbourSum,
    (mixing_birth_is_rounded_mean mixGrid 5 5 1 1 (by decide) (by decide) mixGrid_flagsOk
      mixGrid_colorsOk rfl mixGrid_neighbourSum).1,
    (mixing_birth_is_rounded_mean mixGrid 5 5 1 1 (by decide) (by decide) mixGrid_flagsOk
      mixGrid_colorsOk rfl mixGrid_neighbourSum).2.2.2.2.2.2
      (mixGrid_colors ▸ List.Perm.refl _)⟩

/-- The claim C3 statement at the cell `(1, 1)` of the mixing grid: the three neighbour
colours differ, so the born cell takes the colour of the first alive neighbour met. -/
theorem majority_birth_color_witness :
    FlagsOk mixGrid 5 5 ∧ (mixGrid 1 1).alive = 0 ∧ neighbourSum mixGrid 5 5 1 1 = 3
    ∧ (neighbourColors mixGrid 5 5 1 1).Nodup
    ∧ (neighbourColors mixGrid 5 5 1 1).head? = some (step mixGrid 5 5 false 1 1).color :=
  ⟨mixGrid_flagsOk, rfl, mixGrid_neighbourSum, by decide,
    (majority_birth_color mixGrid 5 5 1 1 (by decide) (by decide) mixGrid_flagsOk rfl
      mixGrid_neighbourSum).2.2.2.2.1 (by decide)⟩

/-- The claim C4 statement at the running blinker state (one colour after the step, so
the winner is reported) and at the idle blinker state (nothing is reported). -/
theorem winner_check_while_running_witness :
    runningState.running = true
    ∧ OneColour (draw runningState).grid runningState.cols runningState.rows ⟨255, 99, 132⟩
    ∧ (draw runningState).running = false
    ∧ (draw runningState).winnerColor = some ⟨255, 99, 132⟩
    ∧ idleState.running = false
    ∧ (draw idleState).winnerColor = idleState.winnerColor :=
  ⟨rfl, blinker_draw_oneColour,
    ((winner_check_while_running runningState).1 rfl).1.mpr ⟨_, blinker_draw_oneColour⟩,
    ((winner_check_while_running runningState).1 rfl).2.1 _ blinker_draw_oneColour,
    rfl, ((winner_check_while_running idleState).2 rfl).2⟩

/-- The claim C5 statement at the idle blinker state with the pen at cell `(2, 2)`. -/
theorem wellformed_kept_witness :
    WellFormed idleState.grid idleState.cols idleState.rows
    ∧ idleState.running = false ∧ InRange idleState 2 2
    ∧ CellOk ((mousePressed idleState 2 2).grid (2 : Int).toNat (2 : Int).toNat)
    ∧ WellFormed (mousePressed idleState 2 2).grid idleState.cols idleState.rows
    ∧ WellFormed (clear idleState).grid idleState.cols idleState.rows :=
  ⟨blinkerGrid_wellFormed, rfl, by decide,
    ((wellformed_kept idleState 2 2).2.1 rfl (by decide)).1,
    ((wellformed_kept idleState 2 2).2.2.2.2 blinkerGrid_wellFormed).2.2.1,
    ((wellformed_kept idleState 2 2).2.2.2.2 blinkerGrid_wellFormed).2.2.2.2⟩

/-- The claim C7 statement at the idle blinker state (pen at `(0, 0)`: that cell becomes
alive and white), at an out-of-range cell, and at the running blinker state. -/
theorem edit_gating_and_frame_witness :
    (idleState.running = false ∧ InRange idleState 0 0 ∧ idleState.tool = Tool.pen
      ∧ (mousePressed idleState 0 0).grid (0 : Int).toNat (0 : Int).toNat
          = ⟨1, ⟨255, 255, 255⟩⟩)
    ∧ (¬ InRange idleState 7 (-1) ∧ (mouseDragged idleState 7 (-1)).grid = idleState.grid)
    ∧ (runningState.running = true ∧ (mousePressed runningState 0 0).grid = runningState.grid) :=
  ⟨⟨rfl, by decide, rfl,
      (((edit_gating_and_frame idleState 0 0).2.2.1 rfl (by decide)).1 rfl).1⟩,
    ⟨by decide, ((edit_gating_and_frame idleState 7 (-1)).2.1 (by decide)).2⟩,
    ⟨rfl, ((edit_gating_and_frame runningState 0 0).1 rfl).1⟩⟩

/-- The claim C9 statement at the idle blinker state (the grid is frozen, one sample is
appended) and at the running blinker state (the winner is reported and three further
ticks leave the grid as it is). -/
theorem tick_idle_and_winner_witness :
    (idleState.running = false ∧ (draw idleState).grid = idleState.grid
      ∧ (draw idleState).history
          = idleState.history ++ [aliveRatio idleState.grid idleState.cols idleState.rows]
      ∧ (draw idleState).history = [3 / 25])
    ∧ (runningState.running = true
      ∧ OneColour (step runningState.grid runningState.cols runningState.rows
          runningState.colorMixing) runningState.cols runningState.rows ⟨255, 99, 132⟩
      ∧ (draw runningState).running = false
      ∧ (draw^[3] (draw runningState)).grid = (draw runningState).grid) :=
  ⟨⟨rfl, ((tick_idle_and_winner idleState).1 rfl).1,
      ((tick_idle_and_winner idleState).1 rfl).2.2.2.2.2.1 (by decide),
      by
        have h := ((tick_idle_and_winner idleState).1 rfl).2.2.2.2.2.2.2 (by decide)
        have hcard : (aliveCells idleState.grid idleState.cols idleState.rows).card = 3 := by
          rw [← aliveCount_eq_card]
          exact blinkerGrid_aliveCount
        have hc : idleState.cols = 5 := rfl
        have hr : idleState.rows = 5 := rfl
        have hh : idleState.history = [] := rfl
        rw [h, hcard, hc, hr, hh]
        norm_num⟩,
    ⟨rfl, blinker_step_oneColour,
      ((tick_idle_and_winner runningState).2 rfl _
        blinker_step_oneColour).2.1,
      (((tick_idle_and_winner runningState).2 rfl _
        blinker_step_oneColour).2.2.2 3).1⟩⟩

/-- The claim C10 statement at the one-coloured blinker grid: the cell `(2, 1)` born by
the step carries the blinker's colour. -/
theorem monochrome_closed_witness :
    FlagsOk blinkerGrid 5 5 ∧ ChannelsOk ⟨255, 99, 132⟩
    ∧ (∀ a < 5, ∀ b < 5, (blinkerGrid a b).alive ≠ 0 →
        (blinkerGrid a b).color = ⟨255, 99, 132⟩)
    ∧ (step blinkerGrid 5 5 true 2 1).alive ≠ 0
    ∧ (step blinkerGrid 5 5 true 2 1).color = ⟨255, 99, 132⟩ :=
  ⟨blinkerGrid_flagsOk, by decide, blinkerGrid_mono, blinkerGrid_born,
    (monochrome_closed blinkerGrid 5 5 _ blinkerGrid_flagsOk (by decide) blinkerGrid_mono).1
      true 2 (by decide) 1 (by decide) blinkerGrid_born⟩

end GameOfLife
